import Mathlib

/-!
# cufile_sample_022: batched reads with bounded completion polling

A shallow embedding of `main` of `src/gds/samples/cufile_sample_022.cc`.

* Every library call of `main` is an `Event`; a run of `main` is the list of
  events it issues, in order, together with the way the process ends.
* The answers of the outside world (the cuFile subsystem, `open`, the CUDA
  runtime) are the fields of `Env`.  The n-th call of
  `cuFileBatchIOGetStatus` reads `Env.getStatus n`.
* Local arrays are functions `Nat → α`; their indeterminate initial contents
  are fields of `Env`.
* A loop `for (i = 0; i < batch_size; i++)` is a recursion over the list of
  the indices still to visit, entered with `List.range batch_size`; a `goto`
  is a call of the block at the label, and the events issued before a block
  are put in front of its run with `Run.after`.
* `unsigned` is 32 bits wide and `size_t` 64 bits wide (LP64 Linux, the only
  platform of the library); `entries_reaped += nr` is taken modulo `2^32`.
* `assert` is active (the sample is built without `NDEBUG`).
* `check_cudaruntimecall` comes from `cufile_sample_utils.h`, which is not
  among the sources.  Whether a wrapped call passes the check is the field
  `Env.cudaCheck`; a call that does not pass ends the run with
  `Outcome.cudaCheckFailed`.
* The reap loop need not terminate, so `main` takes a bound `fuel` on the
  number of `cuFileBatchIOGetStatus` calls; a run cut by the bound ends with
  `Outcome.running`.
-/

namespace CufileSample022

set_option maxRecDepth 1000000

/-! ## Constants (lines 34-36) and integer widths -/

def MAX_BUFFER_SIZE : Nat := 4096

def MAX_BATCH_IOS : Nat := 128

def MAX_NR : Nat := 16

/-- Number of values of `unsigned`. -/
def UINT_MOD : Nat := 2 ^ 32

/-- Number of values of `size_t`. -/
def SIZE_MOD : Nat := 2 ^ 64

/-- Conversion of a `size_t` value to the signed 64-bit `off_t`. -/
def toOff (x : Nat) : Int :=
  if x < 2 ^ 63 then (x : Int) else (x : Int) - 2 ^ 64

/-! ## Data model -/

inductive CUfileBatchMode
  | CUFILE_BATCH
  deriving DecidableEq, Repr

inductive CUfileOpcode
  | CUFILE_READ
  | CUFILE_WRITE
  deriving DecidableEq, Repr

/-- One element of `io_batch_params`.  The handle `cf_handle[i]`, the device
pointer `devPtr[i]` and the address `&io_batch_params[i]` are represented by
the slot index `i`. -/
structure CUfileIOParams where
  mode : CUfileBatchMode
  fh : Nat
  devPtr_base : Nat
  file_offset : Int
  devPtr_offset : Int
  size : Nat
  opcode : CUfileOpcode
  cookie : Nat
  deriving DecidableEq, Repr

/-- The calls wrapped in `check_cudaruntimecall`. -/
inductive CudaCall
  | cudaSetDevice
  | cudaMalloc (i : Nat)
  | cudaMemset (i : Nat)
  | cudaStreamSynchronize (i : Nat)
  | cudaFree (i : Nat)
  deriving DecidableEq, Repr

/-- Library calls issued by `main`, with the slot they act on.
`assertFail` is a failing `assert`. -/
inductive Event
  | cudaCall (c : CudaCall)
  | cuFileDriverOpen
  | openFile (i : Nat)
  | cuFileHandleRegister (i : Nat)
  | close (i : Nat)
  | cuFileBufRegister (i : Nat)
  | cuFileBatchIOSetUp (nr : Nat)
  | cuFileBatchIOSubmit (nr : Nat) (params : List CUfileIOParams)
  | cuFileBatchIOGetStatus (min_nr nr : Nat)
  | assertFail
  | cuFileBatchIODestroy
  | cuFileBufDeregister (i : Nat)
  | cuFileHandleDeregister (i : Nat)
  | cuFileDriverClose
  deriving DecidableEq, Repr

/-- How a run ends. -/
inductive Outcome
  | returned (code : Int)
  | exited (code : Int)
  | aborted
  | cudaCheckFailed
  | running
  deriving DecidableEq, Repr

structure Run where
  trace : List Event
  outcome : Outcome
  deriving DecidableEq, Repr

/-- The run `r` after the events `evs` have been issued. -/
def Run.after (evs : List Event) (r : Run) : Run :=
  ⟨evs ++ r.trace, r.outcome⟩

/-- The answers of the outside world. `true` stands for success
(`CU_FILE_SUCCESS`, `err == 0`, a passed check). -/
structure Env where
  argc : Int
  cudaCheck : CudaCall → Bool
  driverOpen : Bool
  fd0 : Nat → Int
  params0 : Nat → CUfileIOParams
  openRet : Nat → Int
  handleRegister : Nat → Bool
  bufRegister : Nat → Bool
  setUp : Bool
  submit : Bool
  getStatus : Nat → Bool × Nat
  bufDeregister : Nat → Bool
  driverClose : Bool

/-- The local variables of `main` that outlive one stage. -/
structure Vars where
  fd : Nat → Int
  ret : Int
  io_batch_params : Nat → CUfileIOParams

/-- Array store `a[i] = v`. -/
def store {α : Type} (a : Nat → α) (i : Nat) (v : α) : Nat → α :=
  fun j => if j = i then v else a j

/-! ## Teardown (lines 162-197) -/

/-- Lines 190-197: driver close, `ret = 0`, `return ret`. -/
def driverCloseBlock (e : Env) (s : Vars) : Run :=
  let s := if e.driverClose then s else { s with ret := -1 }
  let s := { s with ret := 0 }
  ⟨[Event.cuFileDriverClose], Outcome.returned s.ret⟩

/-- Label `out1`, lines 183-188. -/
def out1Loop (e : Env) : List Nat → Vars → Run
  | [], s => driverCloseBlock e s
  | i :: is, s =>
    if s.fd i > 0 then
      (out1Loop e is s).after [Event.cuFileHandleDeregister i, Event.close i]
    else out1Loop e is s

/-- Line 75: `batch_size = MAX_BATCH_IOS`. -/
def batch_size : Nat := MAX_BATCH_IOS

/-- The block at label `out1`, lines 181-197. -/
def out1 (e : Env) (s : Vars) : Run :=
  out1Loop e (List.range batch_size) s

/-- Label `out2`, lines 178-180. -/
def out2Loop (e : Env) : List Nat → Vars → Run
  | [], s => out1 e s
  | i :: is, s =>
    Run.after [Event.cudaCall (CudaCall.cudaFree i)]
      (if e.cudaCheck (CudaCall.cudaFree i) then out2Loop e is s
       else ⟨[], Outcome.cudaCheckFailed⟩)

/-- The block at label `out2`, lines 177-197. -/
def out2 (e : Env) (s : Vars) : Run :=
  out2Loop e (List.range batch_size) s

/-- Label `out3`, lines 169-176. -/
def out3Loop (e : Env) : List Nat → Vars → Run
  | [], s => out2 e s
  | i :: is, s =>
    Run.after [Event.cuFileBufDeregister i]
      (if e.bufDeregister i then out3Loop e is s
       else out3Loop e is { s with ret := -1 })

/-- The block at label `out3`, lines 167-197. -/
def out3 (e : Env) (s : Vars) : Run :=
  out3Loop e (List.range batch_size) s

/-- Label `out4`, line 163. -/
def out4 (e : Env) (s : Vars) : Run :=
  (out3 e s).after [Event.cuFileBatchIODestroy]

/-! ## The reap loop (lines 143-160) -/

inductive ReapExit
  | done
  | error
  | assertFailed
  | running
  deriving DecidableEq, Repr

/-- What the reap loop leaves behind: the calls it issued, how it ended, the
final `entries_reaped`, and (ghost) the values added to `entries_reaped` at
line 158, in order. -/
structure ReapResult where
  trace : List Event
  exit : ReapExit
  entries_reaped : Nat
  counts : List Nat
  deriving DecidableEq, Repr

/-- The value the n-th `cuFileBatchIOGetStatus` call stores in the `unsigned`
variable `nr`. -/
def Env.count (e : Env) (n : Nat) : Nat := (e.getStatus n).2 % UINT_MOD

/-- Whether the n-th `cuFileBatchIOGetStatus` call returns `err == 0`. -/
def Env.statusOk (e : Env) (n : Nat) : Bool := (e.getStatus n).1

/-- Lines 148-160. `n` counts the calls issued so far; `fuel` bounds the
calls still allowed. -/
def reapLoop (e : Env) (min_nr max_nr bsize : Nat) :
    Nat → Nat → Nat → Nat → ReapResult
  | 0, _, entries_reaped, _ =>
    if entries_reaped ≠ bsize then ⟨[], ReapExit.running, entries_reaped, []⟩
    else ⟨[], ReapExit.done, entries_reaped, []⟩
  | fuel + 1, n, entries_reaped, nr =>
    if entries_reaped ≠ bsize then
      let call := Event.cuFileBatchIOGetStatus min_nr nr
      if e.statusOk n then
        let nr := e.count n
        if ¬ (nr ≤ max_nr) then
          ⟨[call, Event.assertFail], ReapExit.assertFailed, entries_reaped, []⟩
        else if ¬ (nr ≥ min_nr) then
          ⟨[call, Event.assertFail], ReapExit.assertFailed, entries_reaped, []⟩
        else
          let entries_reaped := (entries_reaped + nr) % UINT_MOD
          let nr := max_nr
          let r := reapLoop e min_nr max_nr bsize fuel (n + 1) entries_reaped nr
          { r with trace := call :: r.trace, counts := e.count n :: r.counts }
      else ⟨[call], ReapExit.error, entries_reaped, []⟩
    else ⟨[], ReapExit.done, entries_reaped, []⟩

/-- The reap loop as `main` enters it: `nr = MAX_NR` (line 54), `min_nr = 0`,
`max_nr = nr` (lines 145-146), `entries_reaped = 0` (line 58). -/
def reap (e : Env) (fuel : Nat) : ReapResult :=
  let nr := MAX_NR
  let min_nr := 0
  let max_nr := nr
  reapLoop e min_nr max_nr batch_size fuel 0 0 nr

/-- Lines 143-162: the reap loop, then `out4` on normal exit and on a
`cuFileBatchIOGetStatus` error. -/
def reapStage (e : Env) (fuel : Nat) (s : Vars) : Run :=
  let r := reap e fuel
  match r.exit with
  | ReapExit.done => (out4 e s).after r.trace
  | ReapExit.error => (out4 e s).after r.trace
  | ReapExit.assertFailed => ⟨r.trace, Outcome.aborted⟩
  | ReapExit.running => ⟨r.trace, Outcome.running⟩

/-! ## Descriptor assembly, setup and submit (lines 121-141) -/

/-- Line 42: `const size_t size = MAX_BUFFER_SIZE`. -/
def size : Nat := MAX_BUFFER_SIZE

/-- The value stored in `io_batch_params[i]`, lines 122-129. -/
def slotParams (i : Nat) : CUfileIOParams :=
  { mode := CUfileBatchMode.CUFILE_BATCH
    fh := i
    devPtr_base := i
    file_offset := toOff ((i * size) % SIZE_MOD)
    devPtr_offset := 0
    size := size
    opcode := CUfileOpcode.CUFILE_READ
    cookie := i }

/-- Lines 121-130. -/
def buildLoop : List Nat → (Nat → CUfileIOParams) → (Nat → CUfileIOParams)
  | [], a => a
  | i :: is, a => buildLoop is (store a i (slotParams i))

/-- Lines 132-141. -/
def submitStage (e : Env) (fuel : Nat) (s : Vars) : Run :=
  Run.after [Event.cuFileBatchIOSetUp batch_size]
    (if ¬ e.setUp then out3 e s
     else
      Run.after
        [Event.cuFileBatchIOSubmit batch_size
          ((List.range batch_size).map s.io_batch_params)]
        (if ¬ e.submit then out3 e s
         else reapStage e fuel s))

/-- Lines 121-141: the descriptors are assembled, then the batch is set up
and submitted. -/
def buildStage (e : Env) (fuel : Nat) (s : Vars) : Run :=
  submitStage e fuel
    { s with io_batch_params := buildLoop (List.range batch_size) s.io_batch_params }

/-! ## Acquisition (lines 79-119) -/

/-- Lines 111-119. -/
def bufRegisterLoop (e : Env) (fuel : Nat) : List Nat → Vars → Run
  | [], s => buildStage e fuel s
  | i :: is, s =>
    Run.after [Event.cuFileBufRegister i]
      (if ¬ e.bufRegister i then out2 e { s with ret := -1 }
       else bufRegisterLoop e fuel is s)

/-- Lines 102-107. -/
def allocLoop (e : Env) (fuel : Nat) : List Nat → Vars → Run
  | [], s => bufRegisterLoop e fuel (List.range batch_size) s
  | i :: is, s =>
    Run.after [Event.cudaCall (CudaCall.cudaMalloc i)]
      (if ¬ e.cudaCheck (CudaCall.cudaMalloc i) then ⟨[], Outcome.cudaCheckFailed⟩
       else
        Run.after [Event.cudaCall (CudaCall.cudaMemset i)]
          (if ¬ e.cudaCheck (CudaCall.cudaMemset i) then ⟨[], Outcome.cudaCheckFailed⟩
           else
            Run.after [Event.cudaCall (CudaCall.cudaStreamSynchronize i)]
              (if ¬ e.cudaCheck (CudaCall.cudaStreamSynchronize i) then
                ⟨[], Outcome.cudaCheckFailed⟩
               else allocLoop e fuel is s)))

/-- Lines 88-100. -/
def handleRegisterLoop (e : Env) (fuel : Nat) : List Nat → Vars → Run
  | [], s => allocLoop e fuel (List.range batch_size) s
  | i :: is, s =>
    Run.after [Event.cuFileHandleRegister i]
      (if ¬ e.handleRegister i then
        Run.after [Event.close i] (out1 e { s with fd := store s.fd i (-1) })
       else handleRegisterLoop e fuel is s)

/-- Lines 79-86. -/
def openLoop (e : Env) (fuel : Nat) : List Nat → Vars → Run
  | [], s => handleRegisterLoop e fuel (List.range batch_size) s
  | i :: is, s =>
    let s := { s with fd := store s.fd i (e.openRet i) }
    Run.after [Event.openFile i]
      (if s.fd i < 0 then out1 e s
       else openLoop e fuel is s)

/-- The function `main`, lines 38-198. -/
def main (e : Env) (fuel : Nat) : Run :=
  let s : Vars := { fd := e.fd0, ret := -1, io_batch_params := e.params0 }
  if e.argc < 3 then ⟨[], Outcome.exited 1⟩
  else
    Run.after [Event.cudaCall CudaCall.cudaSetDevice]
      (if ¬ e.cudaCheck CudaCall.cudaSetDevice then ⟨[], Outcome.cudaCheckFailed⟩
       else
        Run.after [Event.cuFileDriverOpen]
          (if ¬ e.driverOpen then ⟨[], Outcome.returned (-1)⟩
           else openLoop e fuel (List.range batch_size) s))

/-- An environment in which every call succeeds and every reap call reports
`MAX_NR` completions. -/
def envOk : Env :=
  { argc := 3
    cudaCheck := fun _ => true
    driverOpen := true
    fd0 := fun _ => 0
    params0 := fun _ => slotParams 0
    openRet := fun i => (i : Int) + 3
    handleRegister := fun _ => true
    bufRegister := fun _ => true
    setUp := true
    submit := true
    getStatus := fun _ => (true, 16)
    bufDeregister := fun _ => true
    driverClose := true }


/-! ## Specification vocabulary -/

/-- The values reported by the first `k` reap calls. -/
def Env.counts (e : Env) (k : Nat) : List Nat := (List.range k).map e.count

/-- Running total of the values reported by the first `k` reap calls. -/
def Env.total (e : Env) (k : Nat) : Nat := (e.counts k).sum

/-- The call the reap loop of `main` issues at every iteration. -/
def reapCall : Event := Event.cuFileBatchIOGetStatus 0 MAX_NR

/-- The values reported by the `k` reap calls that follow the first `n`. -/
def Env.countsFrom (e : Env) (n k : Nat) : List Nat :=
  (List.range k).map (fun i => e.count (n + i))

/-- The number `2^28 + 8`. -/
def wrapLast : Nat := 268435464

/-- Reap calls report 8, then 16 for `2^28 + 7` calls, then 8 (at call
number `wrapLast`, counted from 0): the total is `2^32 + 128`. -/
def envWrap : Env :=
  { envOk with
    getStatus := fun n => (true, if n = 0 ∨ n = wrapLast then 8 else 16) }

/-- Reap calls report 16 seven times, then 8 (total 120), then 16 for ever. -/
def envOver : Env :=
  { envOk with getStatus := fun n => (true, if n = 7 then 8 else 16) }

/-- Reap calls report 16 seven times, then 8 (total 120), then 16 (total
136), then 17, then 16 for ever. -/
def envOverAbove : Env :=
  { envOk with
    getStatus := fun n => (true, if n = 7 then 8 else if n = 9 then 17 else 16) }

/-- Position of a call in the sequence of stages of `main`. -/
def Event.phase : Event → Nat
  | Event.cudaCall CudaCall.cudaSetDevice => 0
  | Event.cuFileDriverOpen => 1
  | Event.openFile _ => 2
  | Event.cuFileHandleRegister _ => 3
  | Event.cudaCall (CudaCall.cudaMalloc _) => 4
  | Event.cudaCall (CudaCall.cudaMemset _) => 4
  | Event.cudaCall (CudaCall.cudaStreamSynchronize _) => 4
  | Event.cuFileBufRegister _ => 5
  | Event.cuFileBatchIOSetUp _ => 6
  | Event.cuFileBatchIOSubmit _ _ => 7
  | Event.cuFileBatchIOGetStatus _ _ => 8
  | Event.assertFail => 8
  | Event.cuFileBatchIODestroy => 9
  | Event.cuFileBufDeregister _ => 10
  | Event.cudaCall (CudaCall.cudaFree _) => 11
  | Event.cuFileHandleDeregister _ => 12
  | Event.close _ => 12
  | Event.cuFileDriverClose => 13

/-- The events of `r` come stage after stage, none from a stage before `k`,
and every `cuFileBatchIOGetStatus` call has the arguments of `reapCall`. -/
def Run.Staged (k : Nat) (r : Run) : Prop :=
  r.trace.Pairwise (fun a b => a.phase ≤ b.phase) ∧
  (∀ ev, ev ∈ r.trace → k ≤ ev.phase) ∧
  (∀ m n, Event.cuFileBatchIOGetStatus m n ∈ r.trace → m = 0 ∧ n = MAX_NR)

/-- Whether an event is not a reap call or is the call `reapCall`. -/
def Event.reapArgsOk : Event → Bool
  | Event.cuFileBatchIOGetStatus m n => m == 0 && n == MAX_NR
  | _ => true

instance (k : Nat) (r : Run) : Decidable (r.Staged k) := by
  unfold Run.Staged
  have h : (∀ ev, ev ∈ r.trace → ev.reapArgsOk = true) ↔
      (∀ m n, Event.cuFileBatchIOGetStatus m n ∈ r.trace → m = 0 ∧ n = MAX_NR) := by
    constructor
    · intro h m n hmem
      simpa [Event.reapArgsOk] using h _ hmem
    · intro h ev hmem
      cases ev <;> simp [Event.reapArgsOk]
      exact h _ _ hmem
  have : Decidable (∀ m n, Event.cuFileBatchIOGetStatus m n ∈ r.trace →
      m = 0 ∧ n = MAX_NR) := decidable_of_iff _ h
  infer_instance

/-- The three checked calls of lines 104-106 for slot `i`. -/
def allocCalls (i : Nat) : List Event :=
  [Event.cudaCall (CudaCall.cudaMalloc i), Event.cudaCall (CudaCall.cudaMemset i),
    Event.cudaCall (CudaCall.cudaStreamSynchronize i)]

/-- The calls of the stages before the batch setup, when every one of them
succeeds. -/
def acquireCalls : List Event :=
  [Event.cudaCall CudaCall.cudaSetDevice, Event.cuFileDriverOpen] ++
  (List.range batch_size).map Event.openFile ++
  (List.range batch_size).map Event.cuFileHandleRegister ++
  (List.range batch_size).flatMap allocCalls ++
  (List.range batch_size).map Event.cuFileBufRegister

/-- The batch setup and the batch submission. -/
def submitCalls : List Event :=
  [Event.cuFileBatchIOSetUp batch_size,
    Event.cuFileBatchIOSubmit batch_size ((List.range batch_size).map slotParams)]

/-- The calls of a run up to the batch submission, when every stage
succeeds up to there. -/
def acquireTrace : List Event := acquireCalls ++ submitCalls

/-- The calls of the loop at label `out1` over the slots `is`. -/
def handleTeardown (fd : Nat → Int) (is : List Nat) : List Event :=
  is.flatMap (fun i =>
    if fd i > 0 then [Event.cuFileHandleDeregister i, Event.close i] else [])

/-- The contents of `fd` after the loop of lines 79-86 ran over the slots
`is`. -/
def openedFds (e : Env) (fd : Nat → Int) (is : List Nat) : Nat → Int :=
  is.foldl (fun f i => store f i (e.openRet i)) fd

/-- Every call up to and including the device-buffer registrations
succeeds. -/
def Env.acquireOk (e : Env) : Prop :=
  3 ≤ e.argc ∧ e.cudaCheck CudaCall.cudaSetDevice = true ∧ e.driverOpen = true ∧
  (∀ i, i < batch_size → 0 ≤ e.openRet i) ∧
  (∀ i, i < batch_size → e.handleRegister i = true) ∧
  (∀ i, i < batch_size → e.cudaCheck (CudaCall.cudaMalloc i) = true ∧
    e.cudaCheck (CudaCall.cudaMemset i) = true ∧
    e.cudaCheck (CudaCall.cudaStreamSynchronize i) = true) ∧
  (∀ i, i < batch_size → e.bufRegister i = true)

/-- The run reaches `cuFileBatchIOSubmit` and the batch is submitted. -/
def Env.submitOk (e : Env) : Prop :=
  e.acquireOk ∧ e.setUp = true ∧ e.submit = true

instance (e : Env) : Decidable e.acquireOk := by
  unfold Env.acquireOk; infer_instance

instance (e : Env) : Decidable e.submitOk := by
  unfold Env.submitOk; infer_instance

/-- Everything succeeds except `cuFileBatchIOSubmit`. -/
def envSubmitFail : Env := { envOk with submit := false }

/-- Everything succeeds except `cuFileBatchIOSetUp`. -/
def envSetUpFail : Env := { envOk with setUp := false }

/-- The first `open` fails. -/
def envOpenFail : Env := { envOk with openRet := fun i => if i = 0 then -1 else (i : Int) + 3 }

/-- `cuFileHandleRegister` fails at slot 0. -/
def envHandleFail : Env := { envOk with handleRegister := fun i => decide (i ≠ 0) }

/-- `cuFileBufRegister` succeeds at slot 0 and fails at slot 1. -/
def envBufFail : Env := { envOk with bufRegister := fun i => decide (i ≠ 1) }

/-- The first `open` returns descriptor 0 (standard input is closed), the
following ones 3, 4, ...; `cuFileBatchIOSubmit` fails. -/
def envFdZero : Env :=
  { envOk with
    openRet := fun i => if i = 0 then 0 else (i : Int) + 2
    submit := false }

/-- The ways a run ends once the driver is open: `main` returns 0, a check
of `check_cudaruntimecall` fails, an assertion fails, or the reap loop is
still running. -/
def Outcome.afterOpen (o : Outcome) : Prop :=
  o = Outcome.returned 0 ∨ o = Outcome.cudaCheckFailed ∨ o = Outcome.aborted ∨
    o = Outcome.running

instance (o : Outcome) : Decidable o.afterOpen := by
  unfold Outcome.afterOpen; infer_instance

/-- Every reap call reports 17 completions. -/
def envAbove : Env := { envOk with getStatus := fun _ => (true, 17) }

/-! ## The reap loop: lemmas -/

theorem reapLoop_zero (e : Env) (a b c n er nr : Nat) :
    reapLoop e a b c 0 n er nr =
      if er ≠ c then ⟨[], ReapExit.running, er, []⟩ else ⟨[], ReapExit.done, er, []⟩ := rfl

theorem reapLoop_succ (e : Env) (a b c fuel n er nr : Nat) :
    reapLoop e a b c (fuel + 1) n er nr =
      if er ≠ c then
        if e.statusOk n then
          if ¬ (e.count n ≤ b) then
            ⟨[Event.cuFileBatchIOGetStatus a nr, Event.assertFail],
              ReapExit.assertFailed, er, []⟩
          else if ¬ (e.count n ≥ a) then
            ⟨[Event.cuFileBatchIOGetStatus a nr, Event.assertFail],
              ReapExit.assertFailed, er, []⟩
          else
            { reapLoop e a b c fuel (n + 1) ((er + e.count n) % UINT_MOD) b with
              trace := Event.cuFileBatchIOGetStatus a nr ::
                (reapLoop e a b c fuel (n + 1) ((er + e.count n) % UINT_MOD) b).trace
              counts := e.count n ::
                (reapLoop e a b c fuel (n + 1) ((er + e.count n) % UINT_MOD) b).counts }
        else ⟨[Event.cuFileBatchIOGetStatus a nr], ReapExit.error, er, []⟩
      else ⟨[], ReapExit.done, er, []⟩ := rfl

/-- The loop ends normally only with `entries_reaped == batch_size`; the
final `entries_reaped` is the start value plus the accumulated counts,
modulo `2^32`; every accumulated count is within `[a, b]`. -/
theorem reapLoop_inv (e : Env) (a b c : Nat) :
    ∀ fuel n er nr, er < UINT_MOD →
      let r := reapLoop e a b c fuel n er nr
      (r.exit = ReapExit.done → r.entries_reaped = c) ∧
      r.entries_reaped = (er + r.counts.sum) % UINT_MOD ∧
      (∀ x ∈ r.counts, a ≤ x ∧ x ≤ b) ∧
      r.counts = (List.range r.counts.length).map (fun j => e.count (n + j)) := by
  intro fuel
  induction fuel with
  | zero =>
    intro n er nr her
    rw [reapLoop_zero]
    by_cases h : er = c
    · simp [h]; exact (Nat.mod_eq_of_lt (h ▸ her)).symm
    · simp [h]; exact (Nat.mod_eq_of_lt her).symm
  | succ fuel ih =>
    intro n er nr her
    rw [reapLoop_succ]
    by_cases h : er = c
    · simp [h]; exact (Nat.mod_eq_of_lt (h ▸ her)).symm
    · by_cases hok : e.statusOk n = true
      · by_cases hb : e.count n ≤ b
        · by_cases ha : a ≤ e.count n
          · have hlt : (er + e.count n) % UINT_MOD < UINT_MOD :=
              Nat.mod_lt _ (by unfold UINT_MOD; norm_num)
            obtain ⟨h1, h2, h3, h4⟩ := ih (n + 1) ((er + e.count n) % UINT_MOD) b hlt
            simp only [h, hok, hb, ha, ne_eq, not_false_eq_true, not_true_eq_false,
              if_true, if_false, ge_iff_le]
            refine ⟨h1, ?_, ?_, ?_⟩
            · rw [h2]
              simp only [List.sum_cons]
              rw [Nat.mod_add_mod, Nat.add_assoc]
            · intro x hx
              rcases List.mem_cons.mp hx with hx | hx
              · exact hx ▸ ⟨ha, hb⟩
              · exact h3 x hx
            · simp only [List.length_cons, List.range_succ_eq_map, List.map_cons,
                List.map_map, Nat.add_zero]
              congr 1
              conv_lhs => rw [h4]
              apply List.map_congr_left
              intro j _
              simp [Nat.add_assoc, Nat.add_comm 1 j]
          · simp [h, hok, hb, ha]; exact (Nat.mod_eq_of_lt her).symm
        · simp [h, hok, hb]; exact (Nat.mod_eq_of_lt her).symm
      · simp [h, hok]; exact (Nat.mod_eq_of_lt her).symm


theorem countsFrom_succ (e : Env) (n k : Nat) :
    e.countsFrom n (k + 1) = e.count n :: e.countsFrom (n + 1) k := by
  simp only [Env.countsFrom, List.range_succ_eq_map, List.map_cons, List.map_map,
    Nat.add_zero]
  congr 1
  apply List.map_congr_left
  intro j _
  simp [Nat.add_assoc, Nat.add_comm 1 j]

theorem counts_eq_countsFrom (e : Env) (k : Nat) : e.counts k = e.countsFrom 0 k := by
  simp [Env.counts, Env.countsFrom]

theorem total_succ (e : Env) (k : Nat) : e.total (k + 1) = e.total k + e.count k := by
  simp [Env.total, Env.counts, List.range_succ]

theorem total_zero (e : Env) : e.total 0 = 0 := rfl

theorem uint_mod_pos : 0 < UINT_MOD := by unfold UINT_MOD; norm_num

/-- As long as every call succeeds with a count within `[a, b]` and the loop
test stays true, the loop issues one call after the other. -/
theorem reapLoop_run (e : Env) (a b c : Nat) :
    ∀ k n er, er < UINT_MOD →
      (∀ j, j < k → e.statusOk (n + j) = true ∧ a ≤ e.count (n + j) ∧
        e.count (n + j) ≤ b ∧ (er + (e.countsFrom n j).sum) % UINT_MOD ≠ c) →
      ∀ m, reapLoop e a b c (k + m) n er b =
        { reapLoop e a b c m (n + k) ((er + (e.countsFrom n k).sum) % UINT_MOD) b with
          trace := List.replicate k (Event.cuFileBatchIOGetStatus a b) ++
            (reapLoop e a b c m (n + k) ((er + (e.countsFrom n k).sum) % UINT_MOD) b).trace
          counts := e.countsFrom n k ++
            (reapLoop e a b c m (n + k)
              ((er + (e.countsFrom n k).sum) % UINT_MOD) b).counts } := by
  intro k
  induction k with
  | zero =>
    intro n er her _ m
    simp [Env.countsFrom, Nat.mod_eq_of_lt her]
  | succ k ih =>
    intro n er her hyp m
    obtain ⟨hok, ha, hb, hne⟩ := hyp 0 (Nat.succ_pos k)
    simp only [Nat.add_zero] at hok ha hb
    have hne0 : er ≠ c := by
      simpa [Env.countsFrom, Nat.mod_eq_of_lt her] using hne
    have hlt : (er + e.count n) % UINT_MOD < UINT_MOD := Nat.mod_lt _ uint_mod_pos
    have hsum : ∀ j, ((er + e.count n) % UINT_MOD + (e.countsFrom (n + 1) j).sum) % UINT_MOD
        = (er + (e.countsFrom n (j + 1)).sum) % UINT_MOD := by
      intro j
      rw [countsFrom_succ, List.sum_cons, Nat.mod_add_mod, Nat.add_assoc]
    have hyp2 : ∀ j, j < k → e.statusOk (n + 1 + j) = true ∧ a ≤ e.count (n + 1 + j) ∧
        e.count (n + 1 + j) ≤ b ∧
        ((er + e.count n) % UINT_MOD + (e.countsFrom (n + 1) j).sum) % UINT_MOD ≠ c := by
      intro j hj
      obtain ⟨h1, h2, h3, h4⟩ := hyp (j + 1) (Nat.succ_lt_succ hj)
      have hidx : n + (j + 1) = n + 1 + j := by omega
      rw [hidx] at h1 h2 h3
      exact ⟨h1, h2, h3, by rw [hsum]; exact h4⟩
    have hfuel : k + 1 + m = (k + m) + 1 := by omega
    have hn : n + (k + 1) = n + 1 + k := by omega
    rw [hfuel, reapLoop_succ, ih (n + 1) _ hlt hyp2 m, hsum k, hn]
    simp [hne0, hok, ha, hb, countsFrom_succ, List.replicate_succ]

/-- The calls issued by the loop entered with `nr = max_nr`: the same call
every time, followed by `assertFail` when an assertion fails. -/
theorem reapLoop_trace (e : Env) (a b c : Nat) :
    ∀ fuel n er,
      let r := reapLoop e a b c fuel n er b
      r.trace =
        List.replicate
          (r.counts.length +
            (if r.exit = ReapExit.error ∨ r.exit = ReapExit.assertFailed then 1 else 0))
          (Event.cuFileBatchIOGetStatus a b) ++
        (if r.exit = ReapExit.assertFailed then [Event.assertFail] else []) := by
  intro fuel
  induction fuel with
  | zero =>
    intro n er
    rw [reapLoop_zero]
    by_cases h : er = c <;> simp [h]
  | succ fuel ih =>
    intro n er
    rw [reapLoop_succ]
    by_cases h : er = c
    · simp [h]
    · by_cases hok : e.statusOk n = true
      · by_cases hb : e.count n ≤ b
        · by_cases ha : a ≤ e.count n
          · have := ih (n + 1) ((er + e.count n) % UINT_MOD)
            simp only [h, hok, hb, ha, ne_eq, not_false_eq_true, not_true_eq_false,
              if_true, if_false, ge_iff_le, List.length_cons]
            conv_lhs => rw [this]
            simp only [Nat.add_right_comm _ 1, List.replicate_succ, List.cons_append]
          · simp [h, hok, hb, ha]
        · simp [h, hok, hb]
      · simp [h, hok]

/-- How the loop ended tells what the last call returned. -/
theorem reapLoop_exit (e : Env) (a b c : Nat) :
    ∀ fuel n er nr,
      let r := reapLoop e a b c fuel n er nr
      (r.exit = ReapExit.running → r.counts.length = fuel ∧ r.entries_reaped ≠ c) ∧
      (r.exit = ReapExit.error → e.statusOk (n + r.counts.length) = false) ∧
      (r.exit = ReapExit.assertFailed →
        e.statusOk (n + r.counts.length) = true ∧
        ¬ (a ≤ e.count (n + r.counts.length) ∧ e.count (n + r.counts.length) ≤ b)) := by
  intro fuel
  induction fuel with
  | zero =>
    intro n er nr
    rw [reapLoop_zero]
    by_cases h : er = c <;> simp [h]
  | succ fuel ih =>
    intro n er nr
    rw [reapLoop_succ]
    by_cases h : er = c
    · simp [h]
    · by_cases hok : e.statusOk n = true
      · by_cases hb : e.count n ≤ b
        · by_cases ha : a ≤ e.count n
          · obtain ⟨h1, h2, h3⟩ := ih (n + 1) ((er + e.count n) % UINT_MOD) b
            simp only [h, hok, hb, ha, ne_eq, not_false_eq_true, not_true_eq_false,
              if_true, if_false, ge_iff_le, List.length_cons]
            have hidx : ∀ x, n + (x + 1) = n + 1 + x := by intro x; omega
            rw [hidx (reapLoop e a b c fuel (n + 1) ((er + e.count n) % UINT_MOD) b).counts.length]
            exact ⟨fun hr => ⟨by rw [(h1 hr).1], (h1 hr).2⟩, h2, h3⟩
          · simp [h, hok, hb, ha]
        · simp [h, hok, hb]
      · simp [h, hok]


/-! ## The reap loop as `main` enters it -/

theorem reap_eq (e : Env) (fuel : Nat) :
    reap e fuel = reapLoop e 0 MAX_NR batch_size fuel 0 0 MAX_NR := rfl

theorem total_mono (e : Env) {j k : Nat} (h : j ≤ k) : e.total j ≤ e.total k := by
  induction h with
  | refl => exact Nat.le_refl _
  | step _ ih => rw [total_succ]; exact Nat.le_trans ih (Nat.le_add_right _ _)

theorem total_le_mul (e : Env) (b : Nat) :
    ∀ k, (∀ j, j < k → e.count j ≤ b) → e.total k ≤ b * k := by
  intro k
  induction k with
  | zero => intro _; simp [total_zero]
  | succ k ih =>
    intro h
    rw [total_succ, Nat.mul_succ]
    exact Nat.add_le_add (ih (fun j hj => h j (Nat.lt_succ_of_lt hj))) (h k (Nat.lt_succ_self k))

theorem total_eq_mul (e : Env) (b : Nat) :
    ∀ k, (∀ j, j < k → e.count j = b) → e.total k = b * k := by
  intro k
  induction k with
  | zero => intro _; simp [total_zero]
  | succ k ih =>
    intro h
    rw [total_succ, Nat.mul_succ, ih (fun j hj => h j (Nat.lt_succ_of_lt hj)),
      h k (Nat.lt_succ_self k)]

/-- While every call succeeds with a count of at most `MAX_NR` and the
running total, modulo `2^32`, differs from `batch_size`, the loop of `main`
issues the next call. -/
theorem reap_run (e : Env) (k m : Nat)
    (hyp : ∀ j, j < k → e.statusOk j = true ∧ e.count j ≤ MAX_NR ∧
      e.total j % UINT_MOD ≠ batch_size) :
    reap e (k + m) =
      { reapLoop e 0 MAX_NR batch_size m k (e.total k % UINT_MOD) MAX_NR with
        trace := List.replicate k reapCall ++
          (reapLoop e 0 MAX_NR batch_size m k (e.total k % UINT_MOD) MAX_NR).trace
        counts := e.counts k ++
          (reapLoop e 0 MAX_NR batch_size m k (e.total k % UINT_MOD) MAX_NR).counts } := by
  have h := reapLoop_run e 0 MAX_NR batch_size k 0 0 uint_mod_pos
    (fun j hj => by
      obtain ⟨h1, h2, h3⟩ := hyp j hj
      simp only [Nat.zero_add]
      refine ⟨h1, Nat.zero_le _, h2, ?_⟩
      rw [← counts_eq_countsFrom]
      exact h3) m
  simp only [Nat.zero_add, ← counts_eq_countsFrom] at h
  rw [reap_eq, h]
  rfl


/-- The loop of `main` after `k` calls, none of which ended it. -/
theorem reap_run_zero (e : Env) (k : Nat)
    (hyp : ∀ j, j < k → e.statusOk j = true ∧ e.count j ≤ MAX_NR ∧
      e.total j % UINT_MOD ≠ batch_size) :
    reap e k =
      ⟨List.replicate k reapCall,
        if e.total k % UINT_MOD ≠ batch_size then ReapExit.running else ReapExit.done,
        e.total k % UINT_MOD, e.counts k⟩ := by
  have h := reap_run e k 0 hyp
  rw [Nat.add_zero, reapLoop_zero] at h
  rw [h]
  by_cases hc : e.total k % UINT_MOD = batch_size <;> simp [hc]

/-! ## C1: conservation -/

theorem envWrap_count (n : Nat) :
    envWrap.count n = if n = 0 ∨ n = wrapLast then 8 else 16 := by
  unfold Env.count envWrap UINT_MOD
  by_cases h : n = 0 ∨ n = wrapLast <;> simp [h]

theorem envWrap_total : ∀ j, j < wrapLast → envWrap.total (j + 1) = 16 * j + 8 := by
  intro j
  induction j with
  | zero => intro _; simp [total_succ, total_zero, envWrap_count]
  | succ j ih =>
    intro h
    have hc : envWrap.count (j + 1) = 16 := by
      rw [envWrap_count, if_neg (by omega)]
    rw [total_succ, ih (by omega), hc]
    omega

theorem envWrap_total_last : envWrap.total (wrapLast + 1) = 4294967424 := by
  have hpos : 0 < wrapLast := by unfold wrapLast; omega
  obtain ⟨p, hp⟩ : ∃ p, wrapLast = p + 1 := ⟨wrapLast - 1, by omega⟩
  have h1 : envWrap.total wrapLast = 16 * p + 8 := by
    rw [hp]; exact envWrap_total p (by omega)
  have h2 : envWrap.count wrapLast = 8 := by
    rw [envWrap_count]; simp
  rw [total_succ, h1, h2]
  unfold wrapLast at hp
  omega

theorem envWrap_reap :
    reap envWrap (wrapLast + 1) =
      ⟨List.replicate (wrapLast + 1) reapCall, ReapExit.done, 128,
        envWrap.counts (wrapLast + 1)⟩ := by
  have hyp : ∀ j, j < wrapLast + 1 → envWrap.statusOk j = true ∧
      envWrap.count j ≤ MAX_NR ∧ envWrap.total j % UINT_MOD ≠ batch_size := by
    intro j hj
    refine ⟨rfl, ?_, ?_⟩
    · rw [envWrap_count]; unfold MAX_NR; split <;> omega
    · unfold UINT_MOD batch_size MAX_BATCH_IOS
      cases j with
      | zero => rw [total_zero]; omega
      | succ i =>
        rw [envWrap_total i (by omega)]
        have : i < wrapLast := by omega
        unfold wrapLast at this
        omega
  have hval : 4294967424 % UINT_MOD = batch_size := by
    unfold UINT_MOD batch_size MAX_BATCH_IOS; norm_num
  rw [reap_run_zero envWrap (wrapLast + 1) hyp, envWrap_total_last, hval]
  simp only [ne_eq, not_true_eq_false, if_false]
  rfl

/-- C1, counterexample: the reap calls report 8, then 16 for `2^28 + 7`
calls, then 8. No call fails and no assertion fails, every count is at most
16, and the loop exits normally after `2^28 + 9` calls with
`entries_reaped == 128`, while the counts add up to `2^32 + 128`:
`entries_reaped` is an `unsigned` and wrapped around. -/
theorem conservation_counterexample :
    (reap envWrap (wrapLast + 1)).exit = ReapExit.done ∧
    (reap envWrap (wrapLast + 1)).entries_reaped = 128 ∧
    (reap envWrap (wrapLast + 1)).counts.sum = 4294967424 ∧
    ¬ ((reap envWrap (wrapLast + 1)).exit = ReapExit.done →
        (reap envWrap (wrapLast + 1)).counts.sum = batch_size ∧
        (reap envWrap (wrapLast + 1)).entries_reaped =
          (reap envWrap (wrapLast + 1)).counts.sum) := by
  rw [envWrap_reap]
  have hs : envWrap.total (wrapLast + 1) = 4294967424 := envWrap_total_last
  unfold Env.total at hs
  dsimp only
  refine ⟨rfl, rfl, hs, ?_⟩
  intro h
  have h2 := (h rfl).1
  rw [hs] at h2
  unfold batch_size MAX_BATCH_IOS at h2
  omega

/-- Every call whose count the loop added to `entries_reaped` returned
without error. -/
theorem reapLoop_ok (e : Env) (a b c : Nat) :
    ∀ fuel n er nr j, j < (reapLoop e a b c fuel n er nr).counts.length →
      e.statusOk (n + j) = true := by
  intro fuel
  induction fuel with
  | zero =>
    intro n er nr j hj
    rw [reapLoop_zero] at hj
    by_cases h : er = c <;> simp [h] at hj
  | succ fuel ih =>
    intro n er nr j hj
    rw [reapLoop_succ] at hj
    by_cases h : er = c
    · simp [h] at hj
    · by_cases hok : e.statusOk n = true
      · by_cases hb : e.count n ≤ b
        · by_cases ha : a ≤ e.count n
          · simp only [h, hok, hb, ha, ne_eq, not_false_eq_true, not_true_eq_false,
              if_true, if_false, ge_iff_le, List.length_cons] at hj
            cases j with
            | zero => exact hok
            | succ i =>
              have := ih (n + 1) ((er + e.count n) % UINT_MOD) b i (by omega)
              have hidx : n + (i + 1) = n + 1 + i := by omega
              rw [hidx]
              exact this
          · simp [h, hok, hb, ha] at hj
        · simp [h, hok, hb] at hj
      · simp [h, hok] at hj

/-- C1, amended: when the reap loop of `main` exits normally, every call
succeeded with a count of at most 16 (no error, no assertion failure),
`entries_reaped` is `batch_size`, the accumulated counts are the values
reported by the calls, and their sum is `batch_size` modulo `2^32`; the sum
is `batch_size` exactly, and `entries_reaped` holds it, whenever the sum is
below `2^32`. -/
theorem conservation_modulo (e : Env) (fuel : Nat)
    (h : (reap e fuel).exit = ReapExit.done) :
    (∀ j, j < (reap e fuel).counts.length → e.statusOk j = true ∧ e.count j ≤ MAX_NR) ∧
    (reap e fuel).entries_reaped = batch_size ∧
    (reap e fuel).trace = List.replicate (reap e fuel).counts.length reapCall ∧
    (reap e fuel).counts = e.counts (reap e fuel).counts.length ∧
    (reap e fuel).counts.sum % UINT_MOD = batch_size ∧
    ((reap e fuel).counts.sum < UINT_MOD →
      (reap e fuel).counts.sum = batch_size ∧
      (reap e fuel).entries_reaped = (reap e fuel).counts.sum) := by
  obtain ⟨h1, h2, h3, h4⟩ := reapLoop_inv e 0 MAX_NR batch_size fuel 0 0 MAX_NR uint_mod_pos
  have h5 := reapLoop_trace e 0 MAX_NR batch_size fuel 0 0
  simp only [← reap_eq, Nat.zero_add] at h1 h2 h3 h4 h5
  have hmod : (reap e fuel).counts.sum % UINT_MOD = batch_size := by
    rw [← h2]; exact h1 h
  refine ⟨?_, h1 h, ?_, ?_, hmod, ?_⟩
  · intro j hj
    have hs := reapLoop_ok e 0 MAX_NR batch_size fuel 0 0 MAX_NR j hj
    rw [Nat.zero_add] at hs
    refine ⟨hs, ?_⟩
    have hmem : e.count j ∈ (reap e fuel).counts := by
      rw [h4]
      exact List.mem_map.mpr ⟨j, List.mem_range.mpr hj, rfl⟩
    exact (h3 _ hmem).2
  · rw [h5]; simp [h, reapCall]
  · rw [Env.counts]; exact h4
  · intro hlt
    rw [Nat.mod_eq_of_lt hlt] at hmod
    exact ⟨hmod, by rw [hmod]; exact h1 h⟩

/-- C1, amended, at a concrete run: eight calls reporting 16 each. -/
theorem conservation_modulo_witness :
    (reap envOk 8).exit = ReapExit.done ∧
    ((∀ j, j < (reap envOk 8).counts.length →
      envOk.statusOk j = true ∧ envOk.count j ≤ MAX_NR) ∧
    (reap envOk 8).entries_reaped = batch_size ∧
    (reap envOk 8).trace = List.replicate (reap envOk 8).counts.length reapCall ∧
    (reap envOk 8).counts = envOk.counts (reap envOk 8).counts.length ∧
    (reap envOk 8).counts.sum % UINT_MOD = batch_size ∧
    ((reap envOk 8).counts.sum < UINT_MOD →
      (reap envOk 8).counts.sum = batch_size ∧
      (reap envOk 8).entries_reaped = (reap envOk 8).counts.sum)) :=
  ⟨by decide, conservation_modulo envOk 8 (by decide)⟩


/-! ## C7: progress, C6: over-reporting -/

theorem reapLoop_done (e : Env) (a b c fuel n nr : Nat) :
    reapLoop e a b c fuel n c nr = ⟨[], ReapExit.done, c, []⟩ := by
  cases fuel with
  | zero => simp [reapLoop_zero]
  | succ fuel => simp [reapLoop_succ]

theorem reapLoop_head (e : Env) (a b c fuel n er nr : Nat) (h : er ≠ c) :
    ∃ t, (reapLoop e a b c (fuel + 1) n er nr).trace =
      Event.cuFileBatchIOGetStatus a nr :: t := by
  rw [reapLoop_succ]
  by_cases hok : e.statusOk n = true
  · by_cases hb : e.count n ≤ b
    · by_cases ha : a ≤ e.count n
      · refine ⟨(reapLoop e a b c fuel (n + 1) ((er + e.count n) % UINT_MOD) b).trace, ?_⟩
        simp [h, hok, hb, ha]
      · exact ⟨[Event.assertFail], by simp [h, hok, hb, ha]⟩
    · exact ⟨[Event.assertFail], by simp [h, hok, hb]⟩
  · exact ⟨[], by simp [h, hok]⟩

theorem small_mod {x : Nat} (h : x ≤ batch_size + MAX_NR) : x % UINT_MOD = x := by
  apply Nat.mod_eq_of_lt
  unfold batch_size MAX_BATCH_IOS MAX_NR at h
  unfold UINT_MOD
  omega

/-- C7: if the first `n` reap calls succeed with counts of at most 16 and
`n` is the first call count at which the running total is 128 (so that the
total never exceeds 128), then the reap loop of `main`, allowed at least `n`
calls, exits normally after exactly `n` calls with `entries_reaped == 128`.
A call reporting 0 leaves `entries_reaped` unchanged and the loop running.
The loop makes at least 8 calls, and exactly 8 when every call reports 16. -/
theorem reap_progress (e : Env) (n fuel : Nat)
    (hok : ∀ j, j < n → e.statusOk j = true)
    (h16 : ∀ j, j < n → e.count j ≤ MAX_NR)
    (hn : e.total n = batch_size)
    (hfirst : ∀ j, j < n → e.total j ≠ batch_size)
    (hfuel : n ≤ fuel) :
    (reap e fuel).exit = ReapExit.done ∧
    (reap e fuel).entries_reaped = batch_size ∧
    (reap e fuel).counts = e.counts n ∧
    (reap e fuel).trace = List.replicate n reapCall ∧
    (∀ j, j < n → e.count j = 0 →
      (reap e (j + 1)).exit = ReapExit.running ∧
      (reap e (j + 1)).entries_reaped = (reap e j).entries_reaped) ∧
    8 ≤ n ∧
    ((∀ j, j < n → e.count j = MAX_NR) → n = 8) := by
  have hle : ∀ j, j ≤ n → e.total j % UINT_MOD = e.total j := fun j hj =>
    small_mod (Nat.le_trans (total_mono e hj) (hn ▸ Nat.le_add_right _ _))
  have hyp : ∀ k, k ≤ n → ∀ j, j < k → e.statusOk j = true ∧ e.count j ≤ MAX_NR ∧
      e.total j % UINT_MOD ≠ batch_size := by
    intro k hk j hj
    have hjn : j < n := Nat.lt_of_lt_of_le hj hk
    exact ⟨hok j hjn, h16 j hjn, by rw [hle j (Nat.le_of_lt hjn)]; exact hfirst j hjn⟩
  obtain ⟨m, rfl⟩ : ∃ m, fuel = n + m := ⟨fuel - n, by omega⟩
  have hrun := reap_run e n m (hyp n (Nat.le_refl n))
  rw [hle n (Nat.le_refl n), hn, reapLoop_done] at hrun
  have h8 : 8 ≤ n := by
    have := total_le_mul e MAX_NR n h16
    rw [hn] at this
    unfold batch_size MAX_BATCH_IOS MAX_NR at this
    omega
  refine ⟨by rw [hrun], by rw [hrun], by rw [hrun]; simp, by rw [hrun]; simp, ?_, h8, ?_⟩
  · intro j hj h0
    have hsucc : e.total (j + 1) = e.total j := by rw [total_succ, h0]; rfl
    have hj1 : j + 1 < n := by
      rcases Nat.lt_or_ge (j + 1) n with h | h
      · exact h
      · have hjn : j + 1 = n := by omega
        have hbad : e.total j = batch_size := by rw [← hsucc, hjn]; exact hn
        exact absurd hbad (hfirst j hj)
    rw [reap_run_zero e (j + 1) (hyp (j + 1) (Nat.le_of_lt hj1)),
      reap_run_zero e j (hyp j (Nat.le_of_lt hj))]
    have hne : e.total j % UINT_MOD ≠ batch_size := by
      rw [hle j (Nat.le_of_lt hj)]; exact hfirst j hj
    simp [hne, hsucc]
  · intro hall
    have := total_eq_mul e MAX_NR n hall
    rw [hn] at this
    unfold batch_size MAX_BATCH_IOS MAX_NR at this
    omega

/-- C7 at a concrete run: every call reports 16. -/
theorem reap_progress_witness :
    (reap envOk 8).exit = ReapExit.done ∧
    (reap envOk 8).entries_reaped = batch_size ∧
    (reap envOk 8).counts = envOk.counts 8 ∧
    (reap envOk 8).trace = List.replicate 8 reapCall ∧
    (∀ j, j < 8 → envOk.count j = 0 →
      (reap envOk (j + 1)).exit = ReapExit.running ∧
      (reap envOk (j + 1)).entries_reaped = (reap envOk j).entries_reaped) ∧
    8 ≤ 8 ∧
    ((∀ j, j < 8 → envOk.count j = MAX_NR) → 8 = 8) :=
  reap_progress envOk 8 8 (fun _ _ => rfl) (fun _ _ => Nat.le_refl 16) (by decide)
    (by decide) (Nat.le_refl 8)


/-- C6, counterexample: seven calls report 16 and one reports 8 (running
total 120), then a call reports 16 (running total 136). No assertion fails
at that call: the loop is still running after it, and goes on to issue a
tenth reap call. -/
theorem over_reporting_counterexample :
    (reap envOver 8).entries_reaped = 120 ∧
    (reap envOver 9).counts = [16, 16, 16, 16, 16, 16, 16, 8, 16] ∧
    (reap envOver 9).entries_reaped = 136 ∧
    (reap envOver 9).exit = ReapExit.running ∧
    (reap envOver 10).trace = List.replicate 10 reapCall ∧
    Event.assertFail ∉ (reap envOver 10).trace := by
  decide

/-- C6, amended: let the loop of `main` issue call `k`, that is, let the
first `k` reap calls succeed with counts of at most 16, and let call `k`
succeed. Whatever the running total, below or above 128: if the loop test
was true before each of these calls and call `k` reports more than 16, an
assertion fails at that call, the count is not added, and no further call
is issued; if call `k` reports at most 16 and `entries_reaped` differs from
128 after it, no assertion fails, the count is added and the loop issues
another reap call. In particular, when a running total below 128 is taken
above 128 by a count of at most 16, no assertion fails at that call: the
count is added, the loop keeps running and issues another reap call. -/
theorem over_reporting (e : Env) (k fuel : Nat)
    (hok : ∀ j, j ≤ k → e.statusOk j = true)
    (h16 : ∀ j, j < k → e.count j ≤ MAX_NR)
    (hfuel : k + 2 ≤ fuel) :
    ((∀ j, j ≤ k → e.total j % UINT_MOD ≠ batch_size) → MAX_NR < e.count k →
      reap e fuel =
        ⟨List.replicate (k + 1) reapCall ++ [Event.assertFail], ReapExit.assertFailed,
          e.total k % UINT_MOD, e.counts k⟩) ∧
    ((∀ j, j ≤ k + 1 → e.total j % UINT_MOD ≠ batch_size) → e.count k ≤ MAX_NR →
      (reap e (k + 1)).exit = ReapExit.running ∧
      (reap e (k + 1)).entries_reaped = e.total (k + 1) % UINT_MOD ∧
      (reap e fuel).trace.take (k + 2) = List.replicate (k + 2) reapCall ∧
      (reap e fuel).counts.take (k + 1) = e.counts (k + 1)) ∧
    (e.total k < batch_size → MAX_NR < e.count k →
      reap e fuel =
        ⟨List.replicate (k + 1) reapCall ++ [Event.assertFail], ReapExit.assertFailed,
          e.total k, e.counts k⟩) ∧
    (e.total k < batch_size → e.count k ≤ MAX_NR → batch_size < e.total (k + 1) →
      (reap e (k + 1)).exit = ReapExit.running ∧
      (reap e (k + 1)).entries_reaped = e.total (k + 1) ∧
      (reap e fuel).trace.take (k + 2) = List.replicate (k + 2) reapCall ∧
      (reap e fuel).counts.take (k + 1) = e.counts (k + 1)) := by
  have hfail : (∀ j, j ≤ k → e.total j % UINT_MOD ≠ batch_size) → MAX_NR < e.count k →
      reap e fuel =
        ⟨List.replicate (k + 1) reapCall ++ [Event.assertFail], ReapExit.assertFailed,
          e.total k % UINT_MOD, e.counts k⟩ := by
    intro hrun hbig
    have hyp : ∀ j, j < k → e.statusOk j = true ∧ e.count j ≤ MAX_NR ∧
        e.total j % UINT_MOD ≠ batch_size := fun j hj =>
      ⟨hok j (Nat.le_of_lt hj), h16 j hj, hrun j (Nat.le_of_lt hj)⟩
    obtain ⟨m, rfl⟩ : ∃ m, fuel = k + (m + 1) := ⟨fuel - k - 1, by omega⟩
    rw [reap_run e k (m + 1) hyp, reapLoop_succ]
    simp [hrun k (Nat.le_refl k), hok k (Nat.le_refl k), hbig, List.replicate_succ', reapCall]
  have hcont : (∀ j, j ≤ k + 1 → e.total j % UINT_MOD ≠ batch_size) → e.count k ≤ MAX_NR →
      (reap e (k + 1)).exit = ReapExit.running ∧
      (reap e (k + 1)).entries_reaped = e.total (k + 1) % UINT_MOD ∧
      (reap e fuel).trace.take (k + 2) = List.replicate (k + 2) reapCall ∧
      (reap e fuel).counts.take (k + 1) = e.counts (k + 1) := by
    intro hrun hsmall
    have hne : e.total (k + 1) % UINT_MOD ≠ batch_size := hrun (k + 1) (Nat.le_refl _)
    have hyp1 : ∀ j, j < k + 1 → e.statusOk j = true ∧ e.count j ≤ MAX_NR ∧
        e.total j % UINT_MOD ≠ batch_size := by
      intro j hj
      have hjk : j ≤ k := Nat.le_of_lt_succ hj
      refine ⟨hok j hjk, ?_, hrun j (Nat.le_succ_of_le hjk)⟩
      rcases Nat.lt_or_ge j k with h | h
      · exact h16 j h
      · have : j = k := by omega
        rw [this]; exact hsmall
    obtain ⟨m, rfl⟩ : ∃ m, fuel = (k + 1) + (m + 1) := ⟨fuel - k - 2, by omega⟩
    obtain ⟨t, ht⟩ := reapLoop_head e 0 MAX_NR batch_size m (k + 1)
      (e.total (k + 1) % UINT_MOD) MAX_NR hne
    refine ⟨?_, ?_, ?_, ?_⟩
    · rw [reap_run_zero e (k + 1) hyp1]; simp [hne]
    · rw [reap_run_zero e (k + 1) hyp1]
    · rw [reap_run e (k + 1) (m + 1) hyp1]
      simp only [ht]
      have : List.replicate (k + 1) reapCall ++ Event.cuFileBatchIOGetStatus 0 MAX_NR :: t
          = List.replicate (k + 2) reapCall ++ t := by
        rw [List.replicate_succ' (k + 1)]; simp [reapCall]
      rw [this]
      exact List.take_left' (by simp)
    · rw [reap_run e (k + 1) (m + 1) hyp1]
      exact List.take_left' (by simp [Env.counts])
  have hmod : e.total k < batch_size → ∀ j, j ≤ k → e.total j % UINT_MOD = e.total j :=
    fun hbelow j hj =>
      small_mod (Nat.le_trans (total_mono e hj)
        (Nat.le_trans (Nat.le_of_lt hbelow) (Nat.le_add_right _ _)))
  have hlow : e.total k < batch_size → ∀ j, j ≤ k → e.total j % UINT_MOD ≠ batch_size := by
    intro hbelow j hj
    rw [hmod hbelow j hj]
    exact Nat.ne_of_lt (Nat.lt_of_le_of_lt (total_mono e hj) hbelow)
  refine ⟨hfail, hcont, ?_, ?_⟩
  · intro hbelow hbig
    rw [hfail (hlow hbelow) hbig, hmod hbelow k (Nat.le_refl k)]
  · intro hbelow hsmall hover
    have hlt : e.total (k + 1) ≤ batch_size + MAX_NR := by
      rw [total_succ]; exact Nat.add_le_add (Nat.le_of_lt hbelow) hsmall
    have hrun : ∀ j, j ≤ k + 1 → e.total j % UINT_MOD ≠ batch_size := by
      intro j hj
      rcases Nat.lt_or_ge j (k + 1) with h | h
      · exact hlow hbelow j (Nat.le_of_lt_succ h)
      · have hjk : j = k + 1 := by omega
        rw [hjk, small_mod hlt]
        exact Nat.ne_of_gt hover
    obtain ⟨h1, h2, h3, h4⟩ := hcont hrun hsmall
    exact ⟨h1, by rw [h2, small_mod hlt], h3, h4⟩

/-- C6, amended, at two concrete runs. In the first, seven calls report 16,
one reports 8 (total 120) and the next reports 16 (total 136): the loop
keeps running and issues a tenth call. In the second, the tenth call, issued
with `entries_reaped == 136`, reports 17: the assertion fails there and
`entries_reaped` stays 136. -/
theorem over_reporting_witness :
    (envOver.total 8 < batch_size ∧ batch_size < envOver.total (8 + 1) ∧
      (reap envOver (8 + 1)).exit = ReapExit.running ∧
      (reap envOver (8 + 1)).entries_reaped = envOver.total (8 + 1) ∧
      (reap envOver 10).trace.take (8 + 2) = List.replicate (8 + 2) reapCall ∧
      (reap envOver 10).counts.take (8 + 1) = envOver.counts (8 + 1)) ∧
    (envOverAbove.total 9 = 136 ∧ envOverAbove.count 9 = 17 ∧
      reap envOverAbove 11 =
        ⟨List.replicate (9 + 1) reapCall ++ [Event.assertFail], ReapExit.assertFailed,
          envOverAbove.total 9 % UINT_MOD, envOverAbove.counts 9⟩) :=
  ⟨⟨by decide, by decide,
    (over_reporting envOver 8 10 (fun _ _ => rfl) (by decide) (by decide)).2.2.2
      (by decide) (by decide) (by decide)⟩,
   ⟨by decide, by decide,
    (over_reporting envOverAbove 9 11 (fun _ _ => rfl) (by decide) (by decide)).1
      (by decide) (by decide)⟩⟩

/-! ## C2: disjoint addressing -/

theorem buildLoop_apply (is : List Nat) :
    ∀ (a : Nat → CUfileIOParams) (j : Nat),
      buildLoop is a j = if j ∈ is then slotParams j else a j := by
  induction is with
  | nil => intro a j; simp [buildLoop]
  | cons i is ih =>
    intro a j
    rw [buildLoop, ih]
    by_cases hj : j ∈ is
    · simp [hj]
    · by_cases hji : j = i
      · simp [hj, hji, store]
      · simp [hj, hji, store]

theorem slotParams_offset (i : Nat) (hi : i < batch_size) :
    (slotParams i).file_offset = (i : Int) * 4096 := by
  unfold batch_size MAX_BATCH_IOS at hi
  have h1 : i * 4096 % 18446744073709551616 = i * 4096 := Nat.mod_eq_of_lt (by omega)
  have h2 : i * 4096 < 9223372036854775808 := by omega
  simp only [slotParams, size, MAX_BUFFER_SIZE, SIZE_MOD, toOff]
  norm_num [h1, h2]

/-- C2: after the descriptor-building loop (lines 121-130), whatever the
array held before, every slot `i < batch_size` has `file_offset = i * size`
with `size = 4096`, and the byte ranges of two distinct slots do not
overlap. -/
theorem disjoint_addressing (a : Nat → CUfileIOParams) (i j : Nat)
    (hi : i < batch_size) (hj : j < batch_size) (hij : i ≠ j) :
    (buildLoop (List.range batch_size) a i).file_offset = (i : Int) * (size : Int) ∧
    (buildLoop (List.range batch_size) a i).size = size ∧
    size = 4096 ∧
    ((buildLoop (List.range batch_size) a i).file_offset +
        ((buildLoop (List.range batch_size) a i).size : Int) ≤
        (buildLoop (List.range batch_size) a j).file_offset ∨
      (buildLoop (List.range batch_size) a j).file_offset +
        ((buildLoop (List.range batch_size) a j).size : Int) ≤
        (buildLoop (List.range batch_size) a i).file_offset) := by
  have hpi : buildLoop (List.range batch_size) a i = slotParams i := by
    rw [buildLoop_apply, if_pos (List.mem_range.mpr hi)]
  have hpj : buildLoop (List.range batch_size) a j = slotParams j := by
    rw [buildLoop_apply, if_pos (List.mem_range.mpr hj)]
  rw [hpi, hpj, slotParams_offset i hi, slotParams_offset j hj]
  have hs : (slotParams i).size = 4096 := rfl
  have hs2 : (slotParams j).size = 4096 := rfl
  have hsz : size = 4096 := rfl
  rw [hs, hs2, hsz]
  refine ⟨by norm_num, rfl, rfl, ?_⟩
  push_cast
  omega

/-- C2 at the slots 3 and 4, starting from an arbitrary array. -/
theorem disjoint_addressing_witness :
    (buildLoop (List.range batch_size) envOk.params0 3).file_offset = (3 : Int) * (size : Int) ∧
    (buildLoop (List.range batch_size) envOk.params0 3).size = size ∧
    size = 4096 ∧
    ((buildLoop (List.range batch_size) envOk.params0 3).file_offset +
        ((buildLoop (List.range batch_size) envOk.params0 3).size : Int) ≤
        (buildLoop (List.range batch_size) envOk.params0 4).file_offset ∨
      (buildLoop (List.range batch_size) envOk.params0 4).file_offset +
        ((buildLoop (List.range batch_size) envOk.params0 4).size : Int) ≤
        (buildLoop (List.range batch_size) envOk.params0 3).file_offset) :=
  disjoint_addressing envOk.params0 3 4 (by decide) (by decide) (by decide)

/-! ## C3, C4, C5, C8: runs in which a call fails -/

/-- C3, at the failing input: every call succeeds up to `cuFileBatchIOSetUp`
included, and `cuFileBatchIOSubmit` fails. `main` jumps to `out3`: the batch
was set up and `cuFileBatchIODestroy` is never called. -/
theorem destroy_skipped_when_submit_fails :
    envSubmitFail.setUp = true ∧
    Event.cuFileBatchIOSetUp batch_size ∈ (main envSubmitFail 0).trace ∧
    (main envSubmitFail 0).trace.count Event.cuFileBatchIODestroy = 0 ∧
    (main envSubmitFail 0).outcome = Outcome.returned 0 := by
  decide

/-- C4, at the failing inputs. When `cuFileHandleRegister` fails at slot 0,
the teardown calls `cuFileHandleDeregister` for the slots 1 to 127, none of
which was registered. When `cuFileBufRegister` succeeds at slot 0 and fails
at slot 1, `main` jumps to `out2` and buffer 0 is never deregistered. -/
theorem teardown_not_exact :
    (Event.cuFileHandleRegister 1 ∉ (main envHandleFail 0).trace ∧
      Event.cuFileHandleDeregister 1 ∈ (main envHandleFail 0).trace ∧
      (main envHandleFail 0).trace.count (Event.cuFileHandleRegister 127) = 0 ∧
      (main envHandleFail 0).trace.count (Event.cuFileHandleDeregister 127) = 1) ∧
    (envBufFail.bufRegister 0 = true ∧
      Event.cuFileBufRegister 0 ∈ (main envBufFail 0).trace ∧
      Event.cuFileBufDeregister 0 ∉ (main envBufFail 0).trace ∧
      (main envBufFail 0).outcome = Outcome.returned 0) := by
  decide

/-- C5, at the failing inputs: when the first `open` fails, when
`cuFileHandleRegister` fails, when `cuFileBufRegister` fails (after which
`ret = -1`, line 114) and when `cuFileBatchIOSetUp` fails, `main` reaches
`ret = 0` (line 196) and returns 0. -/
theorem exit_code_zero_after_failure :
    (main envOpenFail 0).outcome = Outcome.returned 0 ∧
    (main envHandleFail 0).outcome = Outcome.returned 0 ∧
    (main envBufFail 0).outcome = Outcome.returned 0 ∧
    (main envSetUpFail 0).outcome = Outcome.returned 0 := by
  decide

/-- C8, at the failing input: the first `open` returns descriptor 0, every
registration succeeds and `cuFileBatchIOSubmit` fails. No reap call is
issued, the 128 buffers are deregistered and the driver is closed, but the
guard `fd[i] > 0` of line 184 skips slot 0: its registered handle is never
deregistered. -/
theorem handle_zero_not_deregistered :
    envFdZero.handleRegister 0 = true ∧
    Event.cuFileHandleRegister 0 ∈ (main envFdZero 0).trace ∧
    Event.cuFileHandleDeregister 0 ∉ (main envFdZero 0).trace ∧
    Event.cuFileHandleDeregister 1 ∈ (main envFdZero 0).trace ∧
    Event.cuFileDriverClose ∈ (main envFdZero 0).trace ∧
    (main envFdZero 0).outcome = Outcome.returned 0 := by
  decide


/-! ## The stages of a run -/

@[simp] theorem after_trace (evs : List Event) (r : Run) :
    (Run.after evs r).trace = evs ++ r.trace := rfl

@[simp] theorem after_outcome (evs : List Event) (r : Run) :
    (Run.after evs r).outcome = r.outcome := rfl

theorem after_after (l1 l2 : List Event) (r : Run) :
    Run.after l1 (Run.after l2 r) = Run.after (l1 ++ l2) r := by
  simp [Run.after]

theorem staged_nil (k : Nat) (o : Outcome) : Run.Staged k ⟨[], o⟩ := by
  simp [Run.Staged]

theorem staged_mono {k p : Nat} {r : Run} (h : k ≤ p) (hr : r.Staged p) : r.Staged k :=
  ⟨hr.1, fun ev hev => Nat.le_trans h (hr.2.1 ev hev), hr.2.2⟩

/-- Events of one stage `p`, followed by a run of the stages from `p` on. -/
theorem staged_after {k p : Nat} (evs : List Event) (r : Run) (hk : k ≤ p)
    (hp : ∀ ev, ev ∈ evs → ev.phase = p)
    (hg : ∀ m n, Event.cuFileBatchIOGetStatus m n ∈ evs → m = 0 ∧ n = MAX_NR)
    (hr : r.Staged p) : (Run.after evs r).Staged k := by
  refine ⟨?_, ?_, ?_⟩
  · rw [after_trace, List.pairwise_append]
    refine ⟨?_, hr.1, ?_⟩
    · apply List.Pairwise.imp_of_mem _ (List.pairwise_of_forall (fun _ _ => trivial))
      intro a b ha hb _
      rw [hp a ha, hp b hb]
    · intro a ha b hb
      rw [hp a ha]
      exact hr.2.1 b hb
  · intro ev hev
    rcases List.mem_append.mp hev with h | h
    · rw [hp ev h]; exact hk
    · exact Nat.le_trans hk (hr.2.1 ev h)
  · intro m n hev
    rcases List.mem_append.mp hev with h | h
    · exact hg m n h
    · exact hr.2.2 m n h

/-- One event that is not a reap call, followed by a run of later stages. -/
theorem staged_cons {k p : Nat} (ev : Event) (r : Run) (hk : k ≤ ev.phase)
    (hp : ev.phase ≤ p) (hne : ev.phase ≠ 8) (hr : r.Staged p) :
    (Run.after [ev] r).Staged k := by
  apply @staged_after k ev.phase [ev] r hk
  · intro x hx; rw [List.mem_singleton.mp hx]
  · intro m n hx
    rw [← List.mem_singleton.mp hx] at hne
    exact absurd rfl hne
  · exact staged_mono hp hr

theorem driverCloseBlock_eq (e : Env) (s : Vars) :
    driverCloseBlock e s = ⟨[Event.cuFileDriverClose], Outcome.returned 0⟩ := rfl

theorem out1Loop_eq (e : Env) (is : List Nat) (s : Vars) :
    out1Loop e is s =
      ⟨handleTeardown s.fd is ++ [Event.cuFileDriverClose], Outcome.returned 0⟩ := by
  induction is with
  | nil => simp [out1Loop, driverCloseBlock_eq, handleTeardown]
  | cons i is ih =>
    rw [out1Loop, ih]
    by_cases h : s.fd i > 0 <;> simp [h, handleTeardown, Run.after]

theorem handleTeardown_phase (fd : Nat → Int) (is : List Nat) :
    ∀ ev, ev ∈ handleTeardown fd is → ev.phase = 12 := by
  intro ev hev
  simp only [handleTeardown, List.mem_flatMap] at hev
  obtain ⟨i, _, hi⟩ := hev
  by_cases h : fd i > 0
  · simp only [h, if_true, List.mem_cons, List.mem_singleton, List.not_mem_nil, or_false] at hi
    rcases hi with rfl | rfl <;> rfl
  · simp [h] at hi

theorem out1_eq (e : Env) (s : Vars) :
    out1 e s = Run.after (handleTeardown s.fd (List.range batch_size))
      ⟨[Event.cuFileDriverClose], Outcome.returned 0⟩ := by
  rw [out1, out1Loop_eq]; rfl

theorem out1_staged (e : Env) (s : Vars) : (out1 e s).Staged 12 := by
  rw [out1_eq]
  apply staged_after _ _ (Nat.le_refl 12) (handleTeardown_phase _ _)
  · intro m n h
    have := handleTeardown_phase _ _ _ h
    simp [Event.phase] at this
  · exact @staged_cons 12 13 Event.cuFileDriverClose ⟨[], Outcome.returned 0⟩
      (by decide) (by decide) (by decide) (staged_nil 13 _)

theorem out2Loop_staged (e : Env) (is : List Nat) (s : Vars) :
    (out2Loop e is s).Staged 11 := by
  induction is with
  | nil => exact staged_mono (by decide) (out1_staged e s)
  | cons i is ih =>
    rw [out2Loop]
    apply staged_cons (Event.cudaCall (CudaCall.cudaFree i)) _ (Nat.le_refl 11)
      (Nat.le_refl 11) (by simp [Event.phase])
    by_cases h : e.cudaCheck (CudaCall.cudaFree i) = true
    · simp only [h, if_true]; exact ih
    · simp only [h]; exact staged_nil 11 _

theorem out3Loop_staged (e : Env) (is : List Nat) :
    ∀ s, (out3Loop e is s).Staged 10 := by
  induction is with
  | nil => intro s; exact staged_mono (by decide) (out2Loop_staged e _ s)
  | cons i is ih =>
    intro s
    rw [out3Loop]
    apply staged_cons (Event.cuFileBufDeregister i) _ (Nat.le_refl 10)
      (Nat.le_refl 10) (by simp [Event.phase])
    by_cases h : e.bufDeregister i = true
    · simp only [h, if_true]; exact ih s
    · simp only [h]; exact ih _

theorem out4_staged (e : Env) (s : Vars) : (out4 e s).Staged 9 :=
  staged_cons Event.cuFileBatchIODestroy _ (Nat.le_refl 9) (by decide) (by decide)
    (out3Loop_staged e _ s)


theorem reap_trace_mem (e : Env) (fuel : Nat) :
    ∀ ev, ev ∈ (reap e fuel).trace → ev = reapCall ∨ ev = Event.assertFail := by
  intro ev hev
  have h := reapLoop_trace e 0 MAX_NR batch_size fuel 0 0
  simp only [← reap_eq] at h
  rw [h] at hev
  rcases List.mem_append.mp hev with h1 | h1
  · exact Or.inl (List.eq_of_mem_replicate h1)
  · by_cases hx : (reap e fuel).exit = ReapExit.assertFailed
    · simp only [hx, if_true, List.mem_singleton] at h1
      exact Or.inr h1
    · simp [hx] at h1

theorem reap_trace_phase (e : Env) (fuel : Nat) :
    ∀ ev, ev ∈ (reap e fuel).trace → ev.phase = 8 := by
  intro ev hev
  rcases reap_trace_mem e fuel ev hev with rfl | rfl <;> rfl

theorem reap_trace_args (e : Env) (fuel : Nat) :
    ∀ m n, Event.cuFileBatchIOGetStatus m n ∈ (reap e fuel).trace → m = 0 ∧ n = MAX_NR := by
  intro m n hev
  rcases reap_trace_mem e fuel _ hev with h | h
  · simp only [reapCall, Event.cuFileBatchIOGetStatus.injEq] at h
    exact h
  · exact absurd h (by simp)

theorem reapStage_staged (e : Env) (fuel : Nat) (s : Vars) :
    (reapStage e fuel s).Staged 8 := by
  have h4 : (Run.after (reap e fuel).trace (out4 e s)).Staged 8 :=
    staged_after _ _ (Nat.le_refl 8) (reap_trace_phase e fuel) (reap_trace_args e fuel)
      (staged_mono (by decide) (out4_staged e s))
  have h0 : ∀ o, (Run.mk (reap e fuel).trace o).Staged 8 := by
    intro o
    have := staged_after (reap e fuel).trace ⟨[], o⟩ (Nat.le_refl 8)
      (reap_trace_phase e fuel) (reap_trace_args e fuel) (staged_nil 8 o)
    simpa [Run.after] using this
  unfold reapStage
  cases hx : (reap e fuel).exit
  · simpa [hx] using h4
  · simpa [hx] using h4
  · simpa [hx] using h0 _
  · simpa [hx] using h0 _

theorem submitStage_staged (e : Env) (fuel : Nat) (s : Vars) :
    (submitStage e fuel s).Staged 6 := by
  unfold submitStage
  apply staged_cons (Event.cuFileBatchIOSetUp batch_size) _ (Nat.le_refl 6)
    (Nat.le_refl 6) (by decide)
  by_cases h1 : e.setUp = true
  · simp only [h1, not_true_eq_false, if_false]
    apply staged_cons (Event.cuFileBatchIOSubmit batch_size _) _ (by simp [Event.phase])
      (Nat.le_refl 7) (by simp [Event.phase])
    by_cases h2 : e.submit = true
    · simp only [h2, not_true_eq_false, if_false]
      exact staged_mono (by decide) (reapStage_staged e fuel s)
    · simp only [h2, not_false_eq_true, if_true]
      exact staged_mono (by decide) (out3Loop_staged e _ s)
  · simp only [h1, not_false_eq_true, if_true]
    exact staged_mono (by decide) (out3Loop_staged e _ s)

theorem bufRegisterLoop_staged (e : Env) (fuel : Nat) (is : List Nat) (s : Vars) :
    (bufRegisterLoop e fuel is s).Staged 5 := by
  induction is with
  | nil => exact staged_mono (by decide) (submitStage_staged e fuel _)
  | cons i is ih =>
    rw [bufRegisterLoop]
    apply staged_cons (Event.cuFileBufRegister i) _ (Nat.le_refl 5) (Nat.le_refl 5)
      (by simp [Event.phase])
    by_cases h : e.bufRegister i = true
    · simp only [h, not_true_eq_false, if_false]; exact ih
    · simp only [h, not_false_eq_true, if_true]
      exact staged_mono (by decide) (out2Loop_staged e _ _)

theorem allocLoop_staged (e : Env) (fuel : Nat) (is : List Nat) (s : Vars) :
    (allocLoop e fuel is s).Staged 4 := by
  induction is with
  | nil => exact staged_mono (by decide) (bufRegisterLoop_staged e fuel _ s)
  | cons i is ih =>
    rw [allocLoop]
    apply staged_cons (Event.cudaCall (CudaCall.cudaMalloc i)) _ (Nat.le_refl 4)
      (Nat.le_refl 4) (by simp [Event.phase])
    by_cases h1 : e.cudaCheck (CudaCall.cudaMalloc i) = true
    · simp only [h1, not_true_eq_false, if_false]
      apply staged_cons (Event.cudaCall (CudaCall.cudaMemset i)) _ (Nat.le_refl 4)
        (Nat.le_refl 4) (by simp [Event.phase])
      by_cases h2 : e.cudaCheck (CudaCall.cudaMemset i) = true
      · simp only [h2, not_true_eq_false, if_false]
        apply staged_cons (Event.cudaCall (CudaCall.cudaStreamSynchronize i)) _
          (Nat.le_refl 4) (Nat.le_refl 4) (by simp [Event.phase])
        by_cases h3 : e.cudaCheck (CudaCall.cudaStreamSynchronize i) = true
        · simp only [h3, not_true_eq_false, if_false]; exact ih
        · simp only [h3, not_false_eq_true, if_true]; exact staged_nil 4 _
      · simp only [h2, not_false_eq_true, if_true]; exact staged_nil 4 _
    · simp only [h1, not_false_eq_true, if_true]; exact staged_nil 4 _

theorem handleRegisterLoop_staged (e : Env) (fuel : Nat) (is : List Nat) (s : Vars) :
    (handleRegisterLoop e fuel is s).Staged 3 := by
  induction is with
  | nil => exact staged_mono (by decide) (allocLoop_staged e fuel _ s)
  | cons i is ih =>
    rw [handleRegisterLoop]
    apply staged_cons (Event.cuFileHandleRegister i) _ (Nat.le_refl 3) (Nat.le_refl 3)
      (by simp [Event.phase])
    by_cases h : e.handleRegister i = true
    · simp only [h, not_true_eq_false, if_false]; exact ih
    · simp only [h, not_false_eq_true, if_true]
      exact staged_cons (Event.close i) _ (by simp [Event.phase]) (Nat.le_refl 12)
        (by simp [Event.phase]) (out1_staged e _)

theorem openLoop_staged (e : Env) (fuel : Nat) (is : List Nat) :
    ∀ s, (openLoop e fuel is s).Staged 2 := by
  induction is with
  | nil => intro s; exact staged_mono (by decide) (handleRegisterLoop_staged e fuel _ s)
  | cons i is ih =>
    intro s
    rw [openLoop]
    apply staged_cons (Event.openFile i) _ (Nat.le_refl 2) (Nat.le_refl 2)
      (by simp [Event.phase])
    split
    · exact staged_mono (by decide) (out1_staged e _)
    · exact ih _

/-- In every run of `main` the calls come stage after stage, and every reap
call has the arguments `min_nr = 0`, `nr = MAX_NR`. -/
theorem main_staged (e : Env) (fuel : Nat) : (main e fuel).Staged 0 := by
  unfold main
  by_cases h0 : e.argc < 3
  · simp only [h0, if_true]; exact staged_nil 0 _
  · simp only [h0, if_false]
    apply staged_cons (Event.cudaCall CudaCall.cudaSetDevice) _ (Nat.le_refl 0)
      (Nat.le_refl 0) (by decide)
    by_cases h1 : e.cudaCheck CudaCall.cudaSetDevice = true
    · simp only [h1, not_true_eq_false, if_false]
      apply staged_cons Event.cuFileDriverOpen _ (by decide) (Nat.le_refl 1) (by decide)
      by_cases h2 : e.driverOpen = true
      · simp only [h2, not_true_eq_false, if_false]
        exact staged_mono (by decide) (openLoop_staged e fuel _ _)
      · simp only [h2, not_false_eq_true, if_true]; exact staged_nil 1 _
    · simp only [h1, not_false_eq_true, if_true]; exact staged_nil 0 _


/-! ## Runs in which the batch is submitted -/

theorem out2Loop_fd (e : Env) (is : List Nat) (s t : Vars) (h : s.fd = t.fd) :
    out2Loop e is s = out2Loop e is t := by
  induction is with
  | nil => simp only [out2Loop, out1_eq, h]
  | cons i is ih => simp only [out2Loop, ih]

theorem out3Loop_eq (e : Env) (is : List Nat) :
    ∀ s, out3Loop e is s = Run.after (is.map Event.cuFileBufDeregister) (out2 e s) := by
  induction is with
  | nil => intro s; simp [out3Loop, Run.after]
  | cons i is ih =>
    intro s
    have hfd : out2 e { s with ret := -1 } = out2 e s := out2Loop_fd e _ _ _ rfl
    rw [out3Loop, ih, ih, hfd]
    by_cases h : e.bufDeregister i = true <;> simp [h, Run.after]

theorem out2Loop_pass (e : Env) (is : List Nat) (s : Vars)
    (h : ∀ i, i ∈ is → e.cudaCheck (CudaCall.cudaFree i) = true) :
    out2Loop e is s =
      Run.after (is.map (fun i => Event.cudaCall (CudaCall.cudaFree i))) (out1 e s) := by
  induction is with
  | nil => simp [out2Loop, Run.after]
  | cons i is ih =>
    rw [out2Loop, ih (fun j hj => h j (List.mem_cons_of_mem i hj))]
    simp [h i (List.mem_cons_self i is), Run.after]

theorem openedFds_apply (e : Env) (is : List Nat) :
    ∀ (fd : Nat → Int) (j : Nat),
      openedFds e fd is j = if j ∈ is then e.openRet j else fd j := by
  induction is with
  | nil => intro fd j; simp [openedFds]
  | cons i is ih =>
    intro fd j
    have hfold : openedFds e fd (i :: is) = openedFds e (store fd i (e.openRet i)) is := rfl
    rw [hfold, ih]
    by_cases hj : j ∈ is
    · simp [hj]
    · by_cases hji : j = i
      · simp [hj, hji, store]
      · simp [hj, hji, store]

theorem openLoop_pass (e : Env) (fuel : Nat) (is : List Nat) :
    ∀ s, (∀ i, i ∈ is → 0 ≤ e.openRet i) →
      openLoop e fuel is s =
        Run.after (is.map Event.openFile)
          (handleRegisterLoop e fuel (List.range batch_size)
            { s with fd := openedFds e s.fd is }) := by
  induction is with
  | nil => intro s _; simp [openLoop, Run.after, openedFds]
  | cons i is ih =>
    intro s h
    have hi : ¬ e.openRet i < 0 := Int.not_lt.mpr (h i (List.mem_cons_self i is))
    rw [openLoop]
    simp only [store, if_true, hi, if_false]
    rw [ih _ (fun j hj => h j (List.mem_cons_of_mem i hj))]
    simp [Run.after, openedFds, store]

theorem handleRegisterLoop_pass (e : Env) (fuel : Nat) (is : List Nat) (s : Vars)
    (h : ∀ i, i ∈ is → e.handleRegister i = true) :
    handleRegisterLoop e fuel is s =
      Run.after (is.map Event.cuFileHandleRegister)
        (allocLoop e fuel (List.range batch_size) s) := by
  induction is with
  | nil => simp [handleRegisterLoop, Run.after]
  | cons i is ih =>
    rw [handleRegisterLoop, ih (fun j hj => h j (List.mem_cons_of_mem i hj))]
    simp [h i (List.mem_cons_self i is), Run.after]

theorem allocLoop_pass (e : Env) (fuel : Nat) (is : List Nat) (s : Vars)
    (h : ∀ i, i ∈ is → e.cudaCheck (CudaCall.cudaMalloc i) = true ∧
      e.cudaCheck (CudaCall.cudaMemset i) = true ∧
      e.cudaCheck (CudaCall.cudaStreamSynchronize i) = true) :
    allocLoop e fuel is s =
      Run.after (is.flatMap allocCalls)
        (bufRegisterLoop e fuel (List.range batch_size) s) := by
  induction is with
  | nil => simp [allocLoop, Run.after]
  | cons i is ih =>
    obtain ⟨h1, h2, h3⟩ := h i (List.mem_cons_self i is)
    rw [allocLoop, ih (fun j hj => h j (List.mem_cons_of_mem i hj))]
    simp [h1, h2, h3, Run.after, allocCalls]

theorem bufRegisterLoop_pass (e : Env) (fuel : Nat) (is : List Nat) (s : Vars)
    (h : ∀ i, i ∈ is → e.bufRegister i = true) :
    bufRegisterLoop e fuel is s =
      Run.after (is.map Event.cuFileBufRegister) (buildStage e fuel s) := by
  induction is with
  | nil => simp [bufRegisterLoop, Run.after]
  | cons i is ih =>
    rw [bufRegisterLoop, ih (fun j hj => h j (List.mem_cons_of_mem i hj))]
    simp [h i (List.mem_cons_self i is), Run.after]

theorem buildStage_submitCalls (e : Env) (fuel : Nat) (s : Vars) (h1 : e.setUp = true) :
    buildStage e fuel s =
      Run.after submitCalls
        (if e.submit = true then
          reapStage e fuel
            { s with io_batch_params := buildLoop (List.range batch_size) s.io_batch_params }
         else
          out3 e
            { s with io_batch_params :=
                buildLoop (List.range batch_size) s.io_batch_params }) := by
  have hmap : (List.range batch_size).map
      (buildLoop (List.range batch_size) s.io_batch_params) =
      (List.range batch_size).map slotParams := by
    apply List.map_congr_left
    intro i hi
    rw [buildLoop_apply, if_pos hi]
  by_cases h2 : e.submit = true <;>
    simp [buildStage, submitStage, submitCalls, h1, h2, hmap, Run.after]

/-- The run of `main` when every stage before the batch setup succeeds. -/
theorem main_acquired (e : Env) (fuel : Nat) (h : e.acquireOk) :
    main e fuel =
      Run.after acquireCalls
        (buildStage e fuel
          { fd := openedFds e e.fd0 (List.range batch_size)
            ret := -1
            io_batch_params := e.params0 }) := by
  obtain ⟨h0, h1, h2, h3, h4, h5, h6⟩ := h
  have hargc : ¬ e.argc < 3 := Int.not_lt.mpr h0
  unfold main
  simp only [hargc, if_false, h1, h2, not_true_eq_false]
  rw [openLoop_pass e fuel _ _ (fun i hi => h3 i (List.mem_range.mp hi)),
    handleRegisterLoop_pass e fuel _ _ (fun i hi => h4 i (List.mem_range.mp hi)),
    allocLoop_pass e fuel _ _ (fun i hi => h5 i (List.mem_range.mp hi)),
    bufRegisterLoop_pass e fuel _ _ (fun i hi => h6 i (List.mem_range.mp hi))]
  simp [Run.after, acquireCalls]

/-- The run of `main` when the batch is submitted. -/
theorem main_submitted (e : Env) (fuel : Nat) (h : e.submitOk) :
    main e fuel =
      Run.after acquireTrace
        (reapStage e fuel
          { fd := openedFds e e.fd0 (List.range batch_size)
            ret := -1
            io_batch_params := buildLoop (List.range batch_size) e.params0 }) := by
  rw [main_acquired e fuel h.1, buildStage_submitCalls e fuel _ h.2.1]
  simp [h.2.2, Run.after, acquireTrace]

/-- The run of `main` when the batch is set up and the submission fails. -/
theorem main_submit_failed (e : Env) (fuel : Nat) (h : e.acquireOk)
    (h1 : e.setUp = true) (h2 : e.submit = false) :
    main e fuel =
      Run.after acquireTrace
        (out3 e
          { fd := openedFds e e.fd0 (List.range batch_size)
            ret := -1
            io_batch_params := buildLoop (List.range batch_size) e.params0 }) := by
  rw [main_acquired e fuel h, buildStage_submitCalls e fuel _ h1]
  simp [h2, Run.after, acquireTrace]

theorem handleTeardown_congr (f g : Nat → Int) (is : List Nat)
    (h : ∀ i, i ∈ is → f i = g i) : handleTeardown f is = handleTeardown g is := by
  induction is with
  | nil => rfl
  | cons i is ih =>
    simp only [handleTeardown, List.flatMap_cons] at ih ⊢
    rw [ih (fun j hj => h j (List.mem_cons_of_mem i hj)), h i (List.mem_cons_self i is)]

theorem acquireTrace_phase : ∀ ev, ev ∈ acquireTrace → ev.phase < 8 := by
  intro ev hev
  simp only [acquireTrace, acquireCalls, submitCalls, List.mem_append, List.mem_cons,
    List.mem_singleton, List.mem_map, List.mem_flatMap, List.not_mem_nil, or_false,
    allocCalls] at hev
  rcases hev with ((((h | h) | h) | h) | h) | h
  · rcases h with rfl | rfl <;> decide
  · obtain ⟨i, _, rfl⟩ := h; simp [Event.phase]
  · obtain ⟨i, _, rfl⟩ := h; simp [Event.phase]
  · obtain ⟨i, _, rfl | rfl | rfl⟩ := h <;> simp [Event.phase]
  · obtain ⟨i, _, rfl⟩ := h; simp [Event.phase]
  · rcases h with rfl | rfl <;> simp [Event.phase]


/-! ## The exit status -/

theorem out2Loop_outcome (e : Env) (is : List Nat) (s : Vars) :
    (out2Loop e is s).outcome.afterOpen := by
  induction is with
  | nil => simp [out2Loop, out1_eq, Outcome.afterOpen]
  | cons i is ih =>
    rw [out2Loop, after_outcome]
    by_cases h : e.cudaCheck (CudaCall.cudaFree i) = true
    · simp only [h, if_true]; exact ih
    · simp [h, Outcome.afterOpen]

theorem out3Loop_outcome (e : Env) (is : List Nat) (s : Vars) :
    (out3Loop e is s).outcome.afterOpen := by
  rw [out3Loop_eq, after_outcome]
  exact out2Loop_outcome e _ s

theorem reapStage_outcome (e : Env) (fuel : Nat) (s : Vars) :
    (reapStage e fuel s).outcome.afterOpen := by
  unfold reapStage
  cases hx : (reap e fuel).exit
  · simpa [hx, out4] using out3Loop_outcome e _ s
  · simpa [hx, out4] using out3Loop_outcome e _ s
  · simp [hx, Outcome.afterOpen]
  · simp [hx, Outcome.afterOpen]

theorem submitStage_outcome (e : Env) (fuel : Nat) (s : Vars) :
    (submitStage e fuel s).outcome.afterOpen := by
  unfold submitStage
  rw [after_outcome]
  by_cases h1 : e.setUp = true
  · by_cases h2 : e.submit = true
    · simpa [h1, h2] using reapStage_outcome e fuel s
    · simpa [h1, h2] using out3Loop_outcome e _ s
  · simpa [h1] using out3Loop_outcome e _ s

theorem bufRegisterLoop_outcome (e : Env) (fuel : Nat) (is : List Nat) (s : Vars) :
    (bufRegisterLoop e fuel is s).outcome.afterOpen := by
  induction is with
  | nil => exact submitStage_outcome e fuel _
  | cons i is ih =>
    rw [bufRegisterLoop, after_outcome]
    by_cases h : e.bufRegister i = true
    · simpa [h] using ih
    · simpa [h] using out2Loop_outcome e _ _

theorem allocLoop_outcome (e : Env) (fuel : Nat) (is : List Nat) (s : Vars) :
    (allocLoop e fuel is s).outcome.afterOpen := by
  induction is with
  | nil => exact bufRegisterLoop_outcome e fuel _ s
  | cons i is ih =>
    rw [allocLoop, after_outcome]
    by_cases h1 : e.cudaCheck (CudaCall.cudaMalloc i) = true
    · by_cases h2 : e.cudaCheck (CudaCall.cudaMemset i) = true
      · by_cases h3 : e.cudaCheck (CudaCall.cudaStreamSynchronize i) = true
        · simpa [h1, h2, h3] using ih
        · simp [h1, h2, h3, Outcome.afterOpen]
      · simp [h1, h2, Outcome.afterOpen]
    · simp [h1, Outcome.afterOpen]

theorem handleRegisterLoop_outcome (e : Env) (fuel : Nat) (is : List Nat) (s : Vars) :
    (handleRegisterLoop e fuel is s).outcome.afterOpen := by
  induction is with
  | nil => exact allocLoop_outcome e fuel _ s
  | cons i is ih =>
    rw [handleRegisterLoop, after_outcome]
    by_cases h : e.handleRegister i = true
    · simpa [h] using ih
    · simp [h, out1_eq, Outcome.afterOpen]

theorem openLoop_outcome (e : Env) (fuel : Nat) (is : List Nat) :
    ∀ s, (openLoop e fuel is s).outcome.afterOpen := by
  induction is with
  | nil => intro s; exact handleRegisterLoop_outcome e fuel _ s
  | cons i is ih =>
    intro s
    rw [openLoop]
    simp only [after_outcome]
    split
    · simp [out1_eq, Outcome.afterOpen]
    · exact ih _

/-- The exit status of `main`: 1 when arguments are missing, -1 when the
driver does not open, and 0 whenever `main` returns after that, whichever
later call failed. -/
theorem main_outcome (e : Env) (fuel : Nat) :
    ((main e fuel).outcome = Outcome.exited 1 ∧ e.argc < 3) ∨
    ((main e fuel).outcome = Outcome.returned (-1) ∧ e.driverOpen = false) ∨
    (main e fuel).outcome.afterOpen := by
  unfold main
  by_cases h0 : e.argc < 3
  · exact Or.inl ⟨by simp [h0], h0⟩
  · by_cases h1 : e.cudaCheck CudaCall.cudaSetDevice = true
    · by_cases h2 : e.driverOpen = true
      · refine Or.inr (Or.inr ?_)
        simpa [h0, h1, h2] using openLoop_outcome e fuel _ _
      · exact Or.inr (Or.inl ⟨by simp [h0, h1, h2], by simpa using h2⟩)
    · exact Or.inr (Or.inr (by simp [h0, h1, Outcome.afterOpen]))

/-! ## Which runs issue `cuFileBatchIOSubmit` -/

theorem staged_no_submit {k : Nat} {r : Run} (hk : 7 < k) (hr : r.Staged k)
    (n : Nat) (ps : List CUfileIOParams) : Event.cuFileBatchIOSubmit n ps ∉ r.trace := by
  intro h
  have := hr.2.1 _ h
  simp only [Event.phase] at this
  omega

theorem submitStage_called (e : Env) (fuel : Nat) (s : Vars) (n : Nat)
    (ps : List CUfileIOParams)
    (h : Event.cuFileBatchIOSubmit n ps ∈ (submitStage e fuel s).trace) :
    e.setUp = true := by
  by_cases h1 : e.setUp = true
  · exact h1
  · exfalso
    simp only [submitStage, h1, not_false_eq_true, if_true, after_trace,
      List.singleton_append, List.mem_cons] at h
    rcases h with h | h
    · cases h
    · exact staged_no_submit (by decide) (out3Loop_staged e _ s) n ps h

theorem bufRegisterLoop_called (e : Env) (fuel : Nat) (n : Nat) (ps : List CUfileIOParams)
    (is : List Nat) (s : Vars)
    (h : Event.cuFileBatchIOSubmit n ps ∈ (bufRegisterLoop e fuel is s).trace) :
    (∀ i, i ∈ is → e.bufRegister i = true) ∧ e.setUp = true := by
  induction is with
  | nil => exact ⟨fun i hi => absurd hi (List.not_mem_nil i), submitStage_called e fuel _ n ps h⟩
  | cons i is ih =>
    simp only [bufRegisterLoop, after_trace, List.singleton_append, List.mem_cons] at h
    rcases h with h | h
    · cases h
    · by_cases hi : e.bufRegister i = true
      · simp only [hi, not_true_eq_false, if_false] at h
        obtain ⟨h1, h2⟩ := ih h
        refine ⟨fun j hj => ?_, h2⟩
        rcases List.mem_cons.mp hj with rfl | hj
        · exact hi
        · exact h1 j hj
      · simp only [hi, not_false_eq_true, if_true] at h
        exact absurd h (staged_no_submit (by decide) (out2Loop_staged e _ _) n ps)

theorem allocLoop_called (e : Env) (fuel : Nat) (n : Nat) (ps : List CUfileIOParams)
    (is : List Nat) (s : Vars)
    (h : Event.cuFileBatchIOSubmit n ps ∈ (allocLoop e fuel is s).trace) :
    (∀ i, i ∈ is → e.cudaCheck (CudaCall.cudaMalloc i) = true ∧
      e.cudaCheck (CudaCall.cudaMemset i) = true ∧
      e.cudaCheck (CudaCall.cudaStreamSynchronize i) = true) ∧
    Event.cuFileBatchIOSubmit n ps ∈
      (bufRegisterLoop e fuel (List.range batch_size) s).trace := by
  induction is with
  | nil => exact ⟨fun i hi => absurd hi (List.not_mem_nil i), h⟩
  | cons i is ih =>
    by_cases h1 : e.cudaCheck (CudaCall.cudaMalloc i) = true
    · by_cases h2 : e.cudaCheck (CudaCall.cudaMemset i) = true
      · by_cases h3 : e.cudaCheck (CudaCall.cudaStreamSynchronize i) = true
        · simp only [allocLoop, h1, h2, h3, not_true_eq_false, if_false, after_trace,
            List.singleton_append, List.mem_cons, reduceCtorEq, false_or] at h
          obtain ⟨h4, h5⟩ := ih h
          refine ⟨fun j hj => ?_, h5⟩
          rcases List.mem_cons.mp hj with rfl | hj
          · exact ⟨h1, h2, h3⟩
          · exact h4 j hj
        · simp [allocLoop, h1, h2, h3] at h
      · simp [allocLoop, h1, h2] at h
    · simp [allocLoop, h1] at h

theorem handleRegisterLoop_called (e : Env) (fuel : Nat) (n : Nat)
    (ps : List CUfileIOParams) (is : List Nat) (s : Vars)
    (h : Event.cuFileBatchIOSubmit n ps ∈ (handleRegisterLoop e fuel is s).trace) :
    (∀ i, i ∈ is → e.handleRegister i = true) ∧
    Event.cuFileBatchIOSubmit n ps ∈ (allocLoop e fuel (List.range batch_size) s).trace := by
  induction is with
  | nil => exact ⟨fun i hi => absurd hi (List.not_mem_nil i), h⟩
  | cons i is ih =>
    simp only [handleRegisterLoop, after_trace, List.singleton_append, List.mem_cons,
      reduceCtorEq, false_or] at h
    by_cases hi : e.handleRegister i = true
    · simp only [hi, not_true_eq_false, if_false] at h
      obtain ⟨h1, h2⟩ := ih h
      refine ⟨fun j hj => ?_, h2⟩
      rcases List.mem_cons.mp hj with rfl | hj
      · exact hi
      · exact h1 j hj
    · simp only [hi, not_false_eq_true, if_true, after_trace, List.singleton_append,
        List.mem_cons, reduceCtorEq, false_or] at h
      exact absurd h (staged_no_submit (by decide) (out1_staged e _) n ps)

theorem openLoop_called (e : Env) (fuel : Nat) (n : Nat) (ps : List CUfileIOParams)
    (is : List Nat) :
    ∀ s, Event.cuFileBatchIOSubmit n ps ∈ (openLoop e fuel is s).trace →
      (∀ i, i ∈ is → 0 ≤ e.openRet i) ∧
      ∃ t, Event.cuFileBatchIOSubmit n ps ∈
        (handleRegisterLoop e fuel (List.range batch_size) t).trace := by
  induction is with
  | nil => intro s h; exact ⟨fun i hi => absurd hi (List.not_mem_nil i), s, h⟩
  | cons i is ih =>
    intro s h
    simp only [openLoop, store, if_true, after_trace, List.singleton_append, List.mem_cons,
      reduceCtorEq, false_or] at h
    by_cases hi : e.openRet i < 0
    · simp only [hi, if_true] at h
      exact absurd h (staged_no_submit (by decide) (out1_staged e _) n ps)
    · simp only [hi, if_false] at h
      obtain ⟨h1, h2⟩ := ih _ h
      refine ⟨fun j hj => ?_, h2⟩
      rcases List.mem_cons.mp hj with rfl | hj
      · exact Int.not_lt.mp hi
      · exact h1 j hj

/-- A run of `main` issues `cuFileBatchIOSubmit` exactly when every call
before it succeeds. -/
theorem submit_called_iff (e : Env) (fuel : Nat) :
    (∃ n ps, Event.cuFileBatchIOSubmit n ps ∈ (main e fuel).trace) ↔
      e.acquireOk ∧ e.setUp = true := by
  constructor
  · rintro ⟨n, ps, h⟩
    by_cases h0 : e.argc < 3
    · simp [main, h0] at h
    · by_cases h1 : e.cudaCheck CudaCall.cudaSetDevice = true
      · by_cases h2 : e.driverOpen = true
        · simp only [main, h0, h1, h2, if_false, not_true_eq_false, after_trace,
            List.singleton_append, List.mem_cons, reduceCtorEq, false_or] at h
          obtain ⟨h3, t, h⟩ := openLoop_called e fuel n ps _ _ h
          obtain ⟨h4, h⟩ := handleRegisterLoop_called e fuel n ps _ _ h
          obtain ⟨h5, h⟩ := allocLoop_called e fuel n ps _ _ h
          obtain ⟨h6, h7⟩ := bufRegisterLoop_called e fuel n ps _ _ h
          exact ⟨⟨Int.not_lt.mp h0, h1, h2, fun i hi => h3 i (List.mem_range.mpr hi),
            fun i hi => h4 i (List.mem_range.mpr hi),
            fun i hi => h5 i (List.mem_range.mpr hi),
            fun i hi => h6 i (List.mem_range.mpr hi)⟩, h7⟩
        · simp [main, h0, h1, h2] at h
      · simp [main, h0, h1] at h
  · rintro ⟨h, h1⟩
    refine ⟨batch_size, (List.range batch_size).map slotParams, ?_⟩
    rw [main_acquired e fuel h, buildStage_submitCalls e fuel _ h1]
    simp [submitCalls]

/-- When the batch is set up and the submission fails, the run is the
acquisition, the failed submission, the 128 buffer deregistrations and the
calls of the labels `out2` and `out1`; no reap call is issued. When every
check on `cudaFree` passes, the run goes on to deregister the handle of
every slot whose descriptor is positive and to close the driver. -/
theorem submit_failed_run (e : Env) (fuel : Nat) (h : e.acquireOk)
    (h1 : e.setUp = true) (h2 : e.submit = false) :
    (∀ m n, Event.cuFileBatchIOGetStatus m n ∉ (main e fuel).trace) ∧
    Event.cuFileBatchIODestroy ∉ (main e fuel).trace ∧
    ∃ rest,
      (main e fuel).trace =
        acquireTrace ++ (List.range batch_size).map Event.cuFileBufDeregister ++ rest ∧
      (∀ ev, ev ∈ rest → 11 ≤ ev.phase) ∧
      ((∀ i, i < batch_size → e.cudaCheck (CudaCall.cudaFree i) = true) →
        rest =
          (List.range batch_size).map (fun i => Event.cudaCall (CudaCall.cudaFree i)) ++
          handleTeardown e.openRet (List.range batch_size) ++
          [Event.cuFileDriverClose]) := by
  have hrun := main_submit_failed e fuel h h1 h2
  have hst : ∀ ev, ev ∈ (main e fuel).trace → ev.phase < 8 ∨ 10 ≤ ev.phase := by
    intro ev hev
    rw [hrun, after_trace] at hev
    rcases List.mem_append.mp hev with hev | hev
    · exact Or.inl (acquireTrace_phase ev hev)
    · exact Or.inr ((out3Loop_staged e _ _).2.1 ev hev)
  refine ⟨fun m n hev => ?_, fun hev => ?_, (out2 e ⟨openedFds e e.fd0 (List.range batch_size),
    -1, buildLoop (List.range batch_size) e.params0⟩).trace, ?_, (out2Loop_staged e _ _).2.1, ?_⟩
  · have := hst _ hev
    simp only [Event.phase] at this
    omega
  · have := hst _ hev
    simp only [Event.phase] at this
    omega
  · rw [hrun]; simp [out3, out3Loop_eq, Run.after]
  · intro hfree
    have hfd : handleTeardown (openedFds e e.fd0 (List.range batch_size))
        (List.range batch_size) = handleTeardown e.openRet (List.range batch_size) := by
      apply handleTeardown_congr
      intro i hi
      rw [openedFds_apply, if_pos hi]
    rw [out2, out2Loop_pass e _ _ (fun i hi => hfree i (List.mem_range.mp hi)), out1_eq]
    simp only [after_trace, hfd, List.append_assoc]

theorem reap_exit_calls (e : Env) (fuel : Nat)
    (h : (reap e fuel).exit = ReapExit.done ∨ (reap e fuel).exit = ReapExit.error) :
    ∃ k, (reap e fuel).trace = List.replicate (k + 1) reapCall := by
  have ht := reapLoop_trace e 0 MAX_NR batch_size fuel 0 0
  obtain ⟨h1, h2, _, _⟩ := reapLoop_inv e 0 MAX_NR batch_size fuel 0 0 MAX_NR uint_mod_pos
  simp only [← reap_eq, Nat.zero_add] at ht h1 h2
  rcases h with h | h
  · have hne : (reap e fuel).counts ≠ [] := by
      intro hnil
      have hb := h1 h
      rw [h2, hnil] at hb
      exact absurd hb (by decide)
    obtain ⟨k, hk⟩ : ∃ k, (reap e fuel).counts.length = k + 1 :=
      ⟨(reap e fuel).counts.length - 1, by
        have := List.length_pos.mpr hne
        omega⟩
    exact ⟨k, by rw [ht, hk]; simp [h, reapCall]⟩
  · exact ⟨(reap e fuel).counts.length, by rw [ht]; simp [h, reapCall]⟩

theorem reapStage_trace (e : Env) (fuel : Nat) (s : Vars) :
    (reapStage e fuel s).trace = (reap e fuel).trace ++
      (if (reap e fuel).exit = ReapExit.done ∨ (reap e fuel).exit = ReapExit.error then
        (out4 e s).trace
       else []) := by
  unfold reapStage
  cases hx : (reap e fuel).exit <;> simp [hx, Run.after]

/-- C9: in a run in which `cuFileBatchIOSubmit` is called and succeeds, the
calls come stage after stage. The trace is the acquisition and the
submission, then the calls of the reap loop, then the teardown `post`; no
deregistration is among the first two parts, and the teardown is empty
unless the reap loop exited, normally or on a reap error. When it did, the
reap loop issued at least one call and the teardown is
`cuFileBatchIODestroy`, the 128 buffer deregistrations, then calls of the
later stages only; when every check on `cudaFree` passes these are the 128
`cudaFree` calls, the handle deregistrations of label `out1` and the driver
close. -/
theorem teardown_ordering (e : Env) (fuel : Nat)
    (hcall : ∃ n ps, Event.cuFileBatchIOSubmit n ps ∈ (main e fuel).trace)
    (hok : e.submit = true) :
    (main e fuel).trace.Pairwise (fun a b => a.phase ≤ b.phase) ∧
    ∃ post,
      (main e fuel).trace = acquireTrace ++ (reap e fuel).trace ++ post ∧
      (∀ ev, ev ∈ acquireTrace ++ (reap e fuel).trace → ev.phase ≤ 8) ∧
      (post ≠ [] →
        (reap e fuel).exit = ReapExit.done ∨ (reap e fuel).exit = ReapExit.error) ∧
      ((reap e fuel).exit = ReapExit.done ∨ (reap e fuel).exit = ReapExit.error →
        (∃ k, (reap e fuel).trace = List.replicate (k + 1) reapCall) ∧
        ∃ rest,
          post = Event.cuFileBatchIODestroy ::
            (List.range batch_size).map Event.cuFileBufDeregister ++ rest ∧
          (∀ ev, ev ∈ rest → 11 ≤ ev.phase) ∧
          ((∀ i, i < batch_size → e.cudaCheck (CudaCall.cudaFree i) = true) →
            rest =
              (List.range batch_size).map (fun i => Event.cudaCall (CudaCall.cudaFree i)) ++
              handleTeardown e.openRet (List.range batch_size) ++
              [Event.cuFileDriverClose])) := by
  have h : e.submitOk :=
    ⟨((submit_called_iff e fuel).mp hcall).1, ((submit_called_iff e fuel).mp hcall).2, hok⟩
  refine ⟨(main_staged e fuel).1, ?_⟩
  have hpre : ∀ ev, ev ∈ acquireTrace ++ (reap e fuel).trace → ev.phase ≤ 8 := by
    intro ev hev
    rcases List.mem_append.mp hev with h1 | h1
    · exact Nat.le_of_lt (acquireTrace_phase ev h1)
    · exact Nat.le_of_eq (reap_trace_phase e fuel ev h1)
  have hout4 : ∀ s : Vars, s.fd = openedFds e e.fd0 (List.range batch_size) →
      ∃ rest, (out4 e s).trace = Event.cuFileBatchIODestroy ::
          (List.range batch_size).map Event.cuFileBufDeregister ++ rest ∧
        (∀ ev, ev ∈ rest → 11 ≤ ev.phase) ∧
        ((∀ i, i < batch_size → e.cudaCheck (CudaCall.cudaFree i) = true) →
          rest =
            (List.range batch_size).map (fun i => Event.cudaCall (CudaCall.cudaFree i)) ++
            handleTeardown e.openRet (List.range batch_size) ++
            [Event.cuFileDriverClose]) := by
    intro s hs
    refine ⟨(out2 e s).trace, ?_, (out2Loop_staged e _ s).2.1, ?_⟩
    · simp [out4, out3, out3Loop_eq, Run.after]
    · intro hfree
      have hfd : handleTeardown s.fd (List.range batch_size) =
          handleTeardown e.openRet (List.range batch_size) := by
        apply handleTeardown_congr
        intro i hi
        rw [hs, openedFds_apply, if_pos hi]
      rw [out2, out2Loop_pass e _ s (fun i hi => hfree i (List.mem_range.mp hi)), out1_eq, hfd]
      simp [Run.after]
  have ht : (main e fuel).trace = acquireTrace ++ ((reap e fuel).trace ++
      (if (reap e fuel).exit = ReapExit.done ∨ (reap e fuel).exit = ReapExit.error then
        (out4 e ⟨openedFds e e.fd0 (List.range batch_size), -1,
          buildLoop (List.range batch_size) e.params0⟩).trace
       else [])) := by
    rw [main_submitted e fuel h, after_trace, reapStage_trace]
  by_cases hex : (reap e fuel).exit = ReapExit.done ∨ (reap e fuel).exit = ReapExit.error
  · obtain ⟨rest, h1, h2, h3⟩ := hout4 ⟨openedFds e e.fd0 (List.range batch_size), -1,
      buildLoop (List.range batch_size) e.params0⟩ rfl
    exact ⟨_, by rw [ht]; simp [hex], hpre, fun _ => hex,
      fun _ => ⟨reap_exit_calls e fuel hex, rest, h1, h2, h3⟩⟩
  · exact ⟨[], by rw [ht]; simp [hex], hpre, fun hne => absurd rfl hne,
      fun hx => absurd hx hex⟩

/-- C9 at a concrete run: every call succeeds and every reap call reports
16. -/
theorem teardown_ordering_witness :
    (∃ n ps, Event.cuFileBatchIOSubmit n ps ∈ (main envOk 8).trace) ∧
    envOk.submit = true ∧
    (main envOk 8).trace.Pairwise (fun a b => a.phase ≤ b.phase) ∧
    ∃ post,
      (main envOk 8).trace = acquireTrace ++ (reap envOk 8).trace ++ post ∧
      (∀ ev, ev ∈ acquireTrace ++ (reap envOk 8).trace → ev.phase ≤ 8) ∧
      (post ≠ [] →
        (reap envOk 8).exit = ReapExit.done ∨ (reap envOk 8).exit = ReapExit.error) ∧
      ((reap envOk 8).exit = ReapExit.done ∨ (reap envOk 8).exit = ReapExit.error →
        (∃ k, (reap envOk 8).trace = List.replicate (k + 1) reapCall) ∧
        ∃ rest,
          post = Event.cuFileBatchIODestroy ::
            (List.range batch_size).map Event.cuFileBufDeregister ++ rest ∧
          (∀ ev, ev ∈ rest → 11 ≤ ev.phase) ∧
          ((∀ i, i < batch_size → envOk.cudaCheck (CudaCall.cudaFree i) = true) →
            rest =
              (List.range batch_size).map (fun i => Event.cudaCall (CudaCall.cudaFree i)) ++
              handleTeardown envOk.openRet (List.range batch_size) ++
              [Event.cuFileDriverClose])) :=
  have hcall : ∃ n ps, Event.cuFileBatchIOSubmit n ps ∈ (main envOk 8).trace :=
    ⟨batch_size, (List.range batch_size).map slotParams, by decide⟩
  ⟨hcall, rfl, teardown_ordering envOk 8 hcall rfl⟩

/-! ## C10: bounded output -/

/-- C10: every `cuFileBatchIOGetStatus` call of `main` is issued with
`min_nr = 0` and `nr = MAX_NR = 16`, the length of `io_batch_events`; every
count added to `entries_reaped` lies between `min_nr = 0` and 16; and when
the loop is about to issue a call that succeeds and reports more than 16,
the first assertion fails: the loop ends there with `entries_reaped`
unchanged and the count not added. -/
theorem bounded_output (e : Env) (fuel : Nat) :
    (∀ m n, Event.cuFileBatchIOGetStatus m n ∈ (main e fuel).trace →
      m = 0 ∧ n = MAX_NR) ∧
    MAX_NR = 16 ∧
    (∀ c, c ∈ (reap e fuel).counts → 0 ≤ c ∧ c ≤ MAX_NR) ∧
    (∀ f n er, er ≠ batch_size → e.statusOk n = true → MAX_NR < e.count n →
      reapLoop e 0 MAX_NR batch_size (f + 1) n er MAX_NR =
        ⟨[reapCall, Event.assertFail], ReapExit.assertFailed, er, []⟩) := by
  refine ⟨(main_staged e fuel).2.2, rfl, ?_, ?_⟩
  · exact (reapLoop_inv e 0 MAX_NR batch_size fuel 0 0 MAX_NR uint_mod_pos).2.2.1
  · intro f n er her hok hbig
    rw [reapLoop_succ]
    simp [her, hok, hbig, reapCall]

/-- C10 at a concrete run: the first reap call reports 17. The assertion
fails at that call and nothing is added to `entries_reaped`. -/
theorem bounded_output_witness :
    reapLoop envAbove 0 MAX_NR batch_size (0 + 1) 0 0 MAX_NR =
      ⟨[reapCall, Event.assertFail], ReapExit.assertFailed, 0, []⟩ :=
  (bounded_output envAbove 1).2.2.2 0 0 0 (by decide) rfl (by decide)

end CufileSample022
